import Mathlib

/-!
Shallow embedding of `src/gemma/sampler.py` (the Gemma greedy sampler):
the batched decoding state machine (`_SamplingState`, `Sampler.init_sample_state`,
`Sampler._sample_step`, `Sampler._sample_fn`, `Sampler.mask_tokens_after_eos_ids`,
`Sampler.__call__`).

Modelling conventions:
- jax arrays become nested lists; `array[i]` becomes `List.getD i default`
  (every access proved about happens in bounds, where the two agree).
- int32 token ids and counters become `Nat` (they are non-negative throughout:
  ids come from the tokenizer / `argmax`, the step counter starts at a prompt
  length and is only incremented).
- float logits become `Option Int`: `none` is `-inf` (the value written by the
  forbidden-token suppression), `some z` a finite score.  The external model is
  a parameter, so any finiteness used is an explicit hypothesis.
- `jnp.ndarray.at[...].set` out-of-bounds scatter indices are dropped (jax's
  default scatter mode), which matches `List.set`'s out-of-range no-op.
- the transformer forward pass, the attention-mask builders
  (`transformer_lib.compute_attention_masks`,
  `compute_sequence_attention_mask`) and the attention cache are external to
  `src/`; they are abstracted into a `GemmaModel` record whose calls receive
  exactly the state the real calls depend on (the mask builders are pure
  functions of the arguments passed here).
- only the text-only path is embedded (`patched_images = None`), under which
  `gemma.multimodal.vision.initialize_vision_tokens` is the identity on the
  buffer and `transformer_lib.mm_input_length` is `0` (both external to `src/`,
  modelled from the spec where noted).
-/

namespace GemmaSampler

/-- Element access `l[i]` with a default, the reading convention for arrays. -/
def bufGet (buf : List (List Nat)) (i j : Nat) : Nat :=
  (buf.getD i []).getD j 0

/-- Column write `arr.at[:, j].set vals` (jnp scatter: rows are paired with the
written values; an out-of-range column index is dropped, like `List.set`). -/
def setColumn {α : Type} (buf : List (List α)) (j : Nat) (vals : List α) :
    List (List α) :=
  List.zipWith (fun row v => row.set j v) buf vals

/-- Last element (`x[-1]`) with a default. -/
def lastD {α : Type} (l : List α) (d : α) : α :=
  l.getD (l.length - 1) d

/-- Extended score: `none` is `-inf` (written by forbidden-id suppression),
`some z` a finite logit. -/
def scoreLt : Option Int → Option Int → Bool
  | none, some _ => true
  | none, none => false
  | some _, none => false
  | some a, some b => decide (a < b)

/-- Running state of `jnp.argmax`: current best index and value; a strictly
greater value replaces the best, so ties keep the first occurrence. -/
def argmaxPair : Nat → Option Int → Nat → List (Option Int) → Nat × Option Int
  | best, bv, _, [] => (best, bv)
  | best, bv, i, x :: xs =>
      if scoreLt bv x then argmaxPair i x (i + 1) xs
      else argmaxPair best bv (i + 1) xs

/-- Index of the first maximum of a score vector (`jnp.argmax(..., axis=-1)`). -/
def argmax (l : List (Option Int)) : Nat :=
  match l with
  | [] => 0
  | x :: xs => (argmaxPair 0 x 1 xs).1

/-- First `True` of a boolean vector (`jnp.argmax` over booleans): index of the
first `true` when one exists, else `0`. -/
def boolArgmax (l : List Bool) : Nat :=
  if l.any id then l.findIdx id else 0

/-- Per-position suppression `logits.at[..., forbidden_token_ids].set(-jnp.inf)`
on one score vector: every listed vocabulary index becomes `-inf`. -/
def suppressRow (f : List Nat) (row : List (Option Int)) : List (Option Int) :=
  List.zipWith (fun i x => if i ∈ f then none else x) (List.range row.length) row

/-- Python-truthiness guard `if sampler_state.forbidden_token_ids:` applied to
a batch of score vectors: `None` and the empty tuple suppress nothing. -/
def applyForbiddenRows :
    Option (List Nat) → List (List (Option Int)) → List (List (Option Int))
  | none, ls => ls
  | some [], ls => ls
  | some (a :: f), ls => ls.map (suppressRow (a :: f))

/-- The same guard applied to the prefill logits `[B, d, V]`. -/
def applyForbiddenMats :
    Option (List Nat) → List (List (List (Option Int))) →
      List (List (List (Option Int)))
  | none, ls => ls
  | some [], ls => ls
  | some (a :: f), ls => ls.map (List.map (suppressRow (a :: f)))

/-- Modelled from the spec: `transformer_lib.build_positions_from_mask` is not
under `src/`; the spec says positions are computed "by counting only valid
(non-pad) tokens", i.e. each slot gets the count of valid tokens up to and
including it, minus one (clamped at zero for a leading pad run). -/
def maskPositionsRow : List Bool → Nat → List Nat
  | [], _ => []
  | b :: bs, acc =>
      (acc + (if b then 1 else 0) - 1) :: maskPositionsRow bs (acc + (if b then 1 else 0))

/-- Modelled from the spec: batched `build_positions_from_mask`. -/
def build_positions_from_mask (input_mask : List (List Bool)) : List (List Nat) :=
  input_mask.map (fun row => maskPositionsRow row 0)

/-- Modelled from the spec: `transformer_lib.mm_input_length` (not under
`src/`) is the multimodal token overhead added to `total_sampling_steps`;
it is `0` on the embedded text-only path (`patched_images = None`). -/
def mm_input_length : Nat := 0

/-- Special ids and codec of the external `spm.SentencePieceProcessor`. -/
structure GemmaVocab where
  padId : Nat
  eosId : Nat
  bosId : Nat
  encodeAsIds : String → List Nat
  decodeIds : List Nat → String

/-- Abstract external transformer backend (`self.transformer.apply` together
with the pure attention-mask builders it is fed, which are external to
`src/`).  `C` is the opaque per-layer KV-cache type.
`applyPrefill` receives the sliced prompt tokens `token_buffer[:, :d]`, the
sliced `positions[:, :d]`, the boundary `d`, and the full `token_buffer`
(from which the real call derives `input_mask` and `bi_directional_mask`),
returning logits `[B, d, V]` and a cache.  `applyStep` receives the step
index, the last-token column, the step-position column, the full
`token_buffer` (source of `input_mask`), and the cache, returning logits
`[B, V]` (the squeezed `[B, 1, V]`) and a cache. -/
structure GemmaModel (C : Type) where
  numEmbed : Nat
  initCache : Nat → C
  applyPrefill : List (List Nat) → List (List Nat) → Nat → List (List Nat) → C →
    List (List (List (Option Int))) × C
  applyStep : Nat → List Nat → List Nat → List (List Nat) → C →
    List (List (Option Int)) × C

/-- The `_SamplingState` chex dataclass. -/
structure SamplingState (C : Type) where
  decoding_step : Nat
  num_input_tokens : List Nat
  token_buffer : List (List Nat)
  positions : List (List Nat)
  cache : C
  done : List Bool
  total_sampling_steps : Nat
  logits_buffer : Option (List (List (List (Option Int)))) := none
  forbidden_token_ids : Option (List Nat) := none

/-- The `SamplerOutput` dataclass. -/
structure SamplerOutput where
  text : List String
  logits : List (List (List (Option Int)))
  tokens : List (List Nat)

/-- The last-token column `token_buffer[:, decoding_step]` read by a step. -/
def stepLastTokens {C : Type} (s : SamplingState C) : List Nat :=
  s.token_buffer.map (fun row => row.getD s.decoding_step 0)

/-- The position column `positions[:, decoding_step]` read by a step. -/
def stepPositions {C : Type} (s : SamplingState C) : List Nat :=
  s.positions.map (fun row => row.getD s.decoding_step 0)

/-- Greedy candidate of sequence `i` in one decode step: `argmax` of that
sequence's forbidden-suppressed logits (lines 151-155 of `sampler.py`). -/
def greedyCandidate {C : Type} (M : GemmaModel C) (s : SamplingState C)
    (i : Nat) : Nat :=
  argmax ((applyForbiddenRows s.forbidden_token_ids
    (M.applyStep s.decoding_step (stepLastTokens s) (stepPositions s)
      s.token_buffer s.cache).1).getD i [])

/-- `Sampler._sample_step`: one decode step.  Reads the last written column,
invokes the backend, suppresses forbidden ids, overrides the candidate with
the next buffer token for sequences still inside their prompt, writes column
`decoding_step + 1`, records logits, ORs `done` with an EOS test on the newly
written column, and advances the step counter. -/
def sample_step {C : Type} (vb : GemmaVocab) (M : GemmaModel C)
    (s : SamplingState C) : SamplingState C :=
  let d := s.decoding_step
  let res := M.applyStep d (stepLastTokens s) (stepPositions s) s.token_buffer s.cache
  let logits := applyForbiddenRows s.forbidden_token_ids res.1
  let cand0 := logits.map argmax
  let cand := List.zipWith
    (fun (p : Nat × List Nat) c =>
      if d < p.1 - 1 then p.2.getD (d + 1) 0 else c)
    (s.num_input_tokens.zip s.token_buffer) cand0
  let token_buffer := setColumn s.token_buffer (d + 1) cand
  let logits_buffer := match s.logits_buffer with
    | some lb => some (setColumn lb (d + 1) logits)
    | none => none
  let done := List.zipWith (fun b t => b || decide (t = vb.eosId)) s.done
    (token_buffer.map (fun row => row.getD (d + 1) 0))
  { decoding_step := d + 1
    num_input_tokens := s.num_input_tokens
    token_buffer := token_buffer
    positions := s.positions
    cache := res.2
    done := done
    total_sampling_steps := s.total_sampling_steps
    logits_buffer := logits_buffer
    forbidden_token_ids := s.forbidden_token_ids }

/-- The padded prompt buffer built by `init_sample_state` (a pad-filled
`[bsz, total_sampling_steps + 1]` grid with each prompt written into its row's
first `num_input_tokens[i]` slots). -/
def initTokenBuffer (vb : GemmaVocab) (all_input_ids : List (List Nat))
    (buffer_size : Nat) : List (List Nat) :=
  all_input_ids.map (fun ids =>
    ids.take buffer_size ++ List.replicate (buffer_size - ids.length) vb.padId)

/-- The validity mask built by `init_sample_state`: a ones grid with each
row's first `num_input_tokens[i]` slots replaced by `input_ids != pad_id`. -/
def initInputMask (vb : GemmaVocab) (all_input_ids : List (List Nat))
    (buffer_size : Nat) : List (List Bool) :=
  all_input_ids.map (fun ids =>
    (ids.map (fun t => decide (t ≠ vb.padId))).take buffer_size ++
      List.replicate (buffer_size - ids.length) true)

/-- The token slice handed to the prefill forward pass:
`jax.lax.dynamic_slice(token_buffer, (0, 0), (bsz, decoding_step))`, where
`decoding_step = num_input_tokens[0]`. -/
def prefillTokenInput (vb : GemmaVocab) (all_input_ids : List (List Nat))
    (total_sampling_steps : Nat) : List (List Nat) :=
  (initTokenBuffer vb all_input_ids (total_sampling_steps + 1)).map
    (fun row => row.take ((all_input_ids.map List.length).headD 0))

/-- `Sampler.init_sample_state` on the text-only path (`patched_images =
None`, under which `initialize_vision_tokens` returns the buffer, counts and
`patches = None` unchanged — that helper lives outside `src/` and is modelled
from the spec: "If images are present, invoke VisionPreprocessor", so absent
images leave the state untouched).  Builds the padded buffer and positions,
runs the prefill pass over the first `num_input_tokens[0]` columns, optionally
materializes a zero-padded logits buffer from the raw logits, suppresses
forbidden ids, and writes the greedy token of the last scored position at the
prefill boundary. -/
def init_sample_state {C : Type} (vb : GemmaVocab) (M : GemmaModel C)
    (all_input_ids : List (List Nat)) (total_sampling_steps : Nat)
    (include_logits : Bool) (forbidden_token_ids : Option (List Nat)) :
    SamplingState C :=
  let bsz := all_input_ids.length
  let buffer_size := total_sampling_steps + 1
  let token_buffer := initTokenBuffer vb all_input_ids buffer_size
  let positions := build_positions_from_mask (initInputMask vb all_input_ids buffer_size)
  let done := List.replicate bsz false
  let num_input_tokens := all_input_ids.map List.length
  let d := num_input_tokens.headD 0
  let res := M.applyPrefill (prefillTokenInput vb all_input_ids total_sampling_steps)
    (positions.map (fun row => row.take d)) d token_buffer (M.initCache bsz)
  let zeroRow : List (Option Int) := List.replicate M.numEmbed (some 0)
  let logits_buffer := if include_logits then
      some (res.1.map (fun m =>
        [zeroRow] ++ m ++ List.replicate (buffer_size - d - 1) zeroRow))
    else none
  let logits := applyForbiddenMats forbidden_token_ids res.1
  let cand := logits.map (fun m => lastD (m.map argmax) 0)
  { decoding_step := d
    num_input_tokens := num_input_tokens
    token_buffer := setColumn token_buffer d cand
    positions := positions
    cache := res.2
    done := done
    total_sampling_steps := total_sampling_steps
    logits_buffer := logits_buffer
    forbidden_token_ids := forbidden_token_ids }

/-- Guard of the `jax.lax.while_loop` in `_sample_fn`:
`decoding_step < total_sampling_steps` AND some sequence is not done. -/
def stepGuard {C : Type} (s : SamplingState C) : Bool :=
  decide (s.decoding_step < s.total_sampling_steps) && s.done.any (fun b => !b)

/-- Fuel-indexed unfolding of the while loop: apply `sample_step` while the
guard holds, for at most `fuel` iterations. -/
def sampleLoop {C : Type} (vb : GemmaVocab) (M : GemmaModel C) :
    Nat → SamplingState C → SamplingState C
  | 0, s => s
  | fuel + 1, s =>
      if stepGuard s then sampleLoop vb M fuel (sample_step vb M s) else s

/-- `Sampler._sample_fn`: the while loop.  Each step increments
`decoding_step` by exactly one and fixes `total_sampling_steps`, so
`total_sampling_steps - decoding_step` fuel always reaches a state whose
guard is false (`sampleLoop_guard_false` below), making this the exact
functional semantics of the unbounded `jax.lax.while_loop`. -/
def sample_fn {C : Type} (vb : GemmaVocab) (M : GemmaModel C)
    (s : SamplingState C) : SamplingState C :=
  sampleLoop vb M (s.total_sampling_steps - s.decoding_step) s

/-- `Sampler.tokenize`: `[bos_id] + EncodeAsIds(input_string)`. -/
def tokenize (vb : GemmaVocab) (input_string : String) : List Nat :=
  vb.bosId :: vb.encodeAsIds input_string

/-- Per-row EOS cut-off of `mask_tokens_after_eos_ids`:
`jnp.where(eos_exists, argmax(equal(row, eos_id)), width)` — the first EOS
index when one exists, else the row width. -/
def maskEosIdx (vb : GemmaVocab) (row : List Nat) : Nat :=
  if row.any (fun t => decide (t = vb.eosId)) then
    boolArgmax (row.map (fun t => decide (t = vb.eosId)))
  else row.length

/-- One row of `mask_tokens_after_eos_ids`:
`row * mask + pad_id * (1 - mask)` with `mask = arange(width) <= eos_index`. -/
def maskRowAfterEos (vb : GemmaVocab) (row : List Nat) : List Nat :=
  List.zipWith
    (fun j t =>
      t * (if j ≤ maskEosIdx vb row then 1 else 0) +
        vb.padId * (if j ≤ maskEosIdx vb row then 0 else 1))
    (List.range row.length) row

/-- `Sampler.mask_tokens_after_eos_ids`: per row, locate the first EOS id and
replace every strictly later position by the pad id. -/
def mask_tokens_after_eos_ids (vb : GemmaVocab) (token_buffer : List (List Nat)) :
    List (List Nat) :=
  token_buffer.map (maskRowAfterEos vb)

/-- Forbidden-token validation of `Sampler.__call__` (lines 364-374): encode
each string and fail unless the encoding has exactly one id; the surviving
single ids are concatenated in order. -/
def encodeForbidden (vb : GemmaVocab) : List String → Except String (List Nat)
  | [] => .ok []
  | t :: ts =>
      let token_id := vb.encodeAsIds t
      if token_id.length ≠ 1 then
        .error "Forbidden tokens must map to single token ids in the vocab."
      else
        match encodeForbidden vb ts with
        | .error e => .error e
        | .ok rest => .ok (token_id ++ rest)

/-- Body of `Sampler.__call__` after forbidden-token validation: tokenize,
size the buffer (`max prompt length + total_generation_steps +
mm_input_length`), initialize, run the loop, mask after EOS, and slice each
row from `0` (echo) or `num_input_tokens[i]` through `total_sampling_steps`. -/
def sampler_run {C : Type} (vb : GemmaVocab) (M : GemmaModel C)
    (input_strings : List String) (total_generation_steps : Nat)
    (echo : Bool) (return_logits : Bool)
    (forbidden_token_ids : Option (List Nat)) : SamplerOutput :=
  let all_input_ids := input_strings.map (tokenize vb)
  let max_input_length := (all_input_ids.map List.length).foldr max 0
  let total_sampling_steps := max_input_length + total_generation_steps + mm_input_length
  let initial := init_sample_state vb M all_input_ids total_sampling_steps
    return_logits forbidden_token_ids
  let st := sample_fn vb M initial
  let masked := mask_tokens_after_eos_ids vb st.token_buffer
  let out_tokens := List.zipWith
    (fun row n => (row.take total_sampling_steps).drop (if echo then 0 else n))
    masked st.num_input_tokens
  let out_logits := if return_logits then
      List.zipWith
        (fun m n => (m.take total_sampling_steps).drop (if echo then 0 else n))
        (st.logits_buffer.getD []) st.num_input_tokens
    else []
  { text := out_tokens.map vb.decodeIds
    logits := out_logits
    tokens := out_tokens }

/-- `Sampler.__call__`: validate forbidden tokens (raising before any state
initialization or model invocation), then run. -/
def sampler_call {C : Type} (vb : GemmaVocab) (M : GemmaModel C)
    (input_strings : List String) (total_generation_steps : Nat)
    (echo : Bool) (return_logits : Bool)
    (forbidden_tokens : Option (List String)) : Except String SamplerOutput :=
  match forbidden_tokens with
  | none =>
      .ok (sampler_run vb M input_strings total_generation_steps echo
        return_logits none)
  | some fts =>
      match encodeForbidden vb fts with
      | .error e => .error e
      | .ok ids =>
          .ok (sampler_run vb M input_strings total_generation_steps echo
            return_logits (some ids))

/-! Auxiliary definitions for the verification: shape predicates (jax
guarantees array shapes by construction; the embedding states the
corresponding facts about the abstract backend and the state as explicit
predicates), named write-columns, and the loop's reachability relation. -/

/-- The state's batch size is `B` and every buffer row has width `W`. -/
def StateWF {C : Type} (B W : Nat) (s : SamplingState C) : Prop :=
  s.token_buffer.length = B ∧
  (∀ i, i < B → (s.token_buffer.getD i []).length = W) ∧
  s.done.length = B ∧
  s.num_input_tokens.length = B

/-- The backend returns one logits row per input sequence (the `[B, ...]`
leading axis of `transformer.apply`'s output). -/
structure ModelShapeOK {C : Type} (M : GemmaModel C) : Prop where
  step_len : ∀ d lt sp tb c, ((M.applyStep d lt sp tb c).1).length = lt.length
  prefill_len : ∀ tk ps d tb c, ((M.applyPrefill tk ps d tb c).1).length = tk.length

/-- The backend's score vectors have the vocabulary width and hold finite
floats (real logits are never `-inf` before suppression). -/
structure ModelLogitsOK {C : Type} (M : GemmaModel C) : Prop where
  step_row : ∀ d lt sp tb c, ∀ r ∈ (M.applyStep d lt sp tb c).1,
    r.length = M.numEmbed ∧ ∀ x ∈ r, x ≠ none
  prefill_row : ∀ tk ps d tb c, ∀ m ∈ (M.applyPrefill tk ps d tb c).1,
    m.length = d ∧ ∀ r ∈ m, r.length = M.numEmbed ∧ ∀ x ∈ r, x ≠ none

/-- The batch of tokens a step writes into column `decoding_step + 1`
(`jnp.where(decoding_step < num_input_tokens - 1, token_buffer[:, d+1],
argmax)`). -/
def stepCandList {C : Type} (M : GemmaModel C) (s : SamplingState C) : List Nat :=
  List.zipWith
    (fun (p : Nat × List Nat) c =>
      if s.decoding_step < p.1 - 1 then p.2.getD (s.decoding_step + 1) 0 else c)
    (s.num_input_tokens.zip s.token_buffer)
    ((applyForbiddenRows s.forbidden_token_ids
      (M.applyStep s.decoding_step (stepLastTokens s) (stepPositions s)
        s.token_buffer s.cache).1).map argmax)

/-- The batch of greedy tokens `init_sample_state` writes at the prefill
boundary: per sequence, `argmax` of the last scored position of the
forbidden-suppressed prefill logits. -/
def initCandList {C : Type} (vb : GemmaVocab) (M : GemmaModel C)
    (all_input_ids : List (List Nat)) (total_sampling_steps : Nat)
    (forbidden_token_ids : Option (List Nat)) : List Nat :=
  (applyForbiddenMats forbidden_token_ids
    (M.applyPrefill (prefillTokenInput vb all_input_ids total_sampling_steps)
      ((build_positions_from_mask
        (initInputMask vb all_input_ids (total_sampling_steps + 1))).map
          (fun row => row.take ((all_input_ids.map List.length).headD 0)))
      ((all_input_ids.map List.length).headD 0)
      (initTokenBuffer vb all_input_ids (total_sampling_steps + 1))
      (M.initCache all_input_ids.length)).1).map
    (fun m => lastD (m.map argmax) 0)

/-- States reachable from `s` by guarded applications of `sample_step` — the
states traversed by the `jax.lax.while_loop` of `_sample_fn`. -/
inductive Reachable {C : Type} (vb : GemmaVocab) (M : GemmaModel C) :
    SamplingState C → SamplingState C → Prop
  | refl (s : SamplingState C) : Reachable vb M s s
  | step {s t : SamplingState C} : Reachable vb M s t → stepGuard t = true →
      Reachable vb M s (sample_step vb M t)

/-! Concrete instances used to evaluate the development on closed inputs. -/

/-- A tiny concrete vocabulary: pad 0, eos 1, bos 2, every character encodes
to id 3. -/
def demoVocab : GemmaVocab where
  padId := 0
  eosId := 1
  bosId := 2
  encodeAsIds := fun s => s.data.map (fun _ => 3)
  decodeIds := fun _ => ""

/-- A one-hot score vector with its maximum at index `t`. -/
def oneHot (V t : Nat) : List (Option Int) :=
  (List.replicate V (some 0)).set t (some 1)

/-- A concrete stateless backend over 5 vocabulary entries that always scores
index 4 highest, with correct output shapes for any batch. -/
def demoModel : GemmaModel Unit where
  numEmbed := 5
  initCache := fun _ => ()
  applyPrefill := fun tk _ d _ _ => (tk.map (fun _ => List.replicate d (oneHot 5 4)), ())
  applyStep := fun _ lt _ _ _ => (lt.map (fun _ => oneHot 5 4), ())

/-! Pointwise access lemmas for the list operations of the embedding. -/

theorem getD_of_lt {α : Type} (l : List α) (i : Nat) (d : α) (h : i < l.length) :
    l.getD i d = l[i] :=
  List.getD_eq_getElem l d h

theorem getD_of_ge {α : Type} (l : List α) (i : Nat) (d : α) (h : l.length ≤ i) :
    l.getD i d = d := by
  simp [List.getD_eq_getElem?_getD, List.getElem?_eq_none h]

theorem getD_mem {α : Type} (l : List α) (i : Nat) (d : α) (h : i < l.length) :
    l.getD i d ∈ l := by
  rw [getD_of_lt l i d h]; exact List.getElem_mem h

theorem zipWith_getD {α β γ : Type} (f : α → β → γ) (as : List α) (bs : List β)
    (i : Nat) (h1 : i < as.length) (h2 : i < bs.length) (da : α) (db : β) (dc : γ) :
    (List.zipWith f as bs).getD i dc = f (as.getD i da) (bs.getD i db) := by
  rw [getD_of_lt _ _ _ (by simp [List.length_zipWith]; omega),
    getD_of_lt _ _ _ h1, getD_of_lt _ _ _ h2]
  exact List.getElem_zipWith

theorem map_getD {α β : Type} (f : α → β) (l : List α) (i : Nat)
    (h : i < l.length) (da : α) (db : β) :
    (l.map f).getD i db = f (l.getD i da) := by
  rw [getD_of_lt _ _ _ (by simpa using h), getD_of_lt _ _ _ h]
  exact List.getElem_map f

theorem set_getD_self {α : Type} (l : List α) (i : Nat) (a d : α)
    (h : i < l.length) : (l.set i a).getD i d = a := by
  rw [getD_of_lt _ _ _ (by simpa using h)]
  exact List.getElem_set_self (by simpa using h)

theorem set_getD_ne {α : Type} (l : List α) (i j : Nat) (a d : α)
    (h : i ≠ j) : (l.set i a).getD j d = l.getD j d := by
  by_cases hj : j < l.length
  · rw [getD_of_lt _ _ _ (by simpa using hj), getD_of_lt _ _ _ hj]
    exact List.getElem_set_ne h _
  · rw [getD_of_ge _ _ _ (by simpa using Nat.le_of_not_lt hj),
      getD_of_ge _ _ _ (Nat.le_of_not_lt hj)]

theorem getD_append_left {α : Type} (l1 l2 : List α) (i : Nat) (d : α)
    (h : i < l1.length) : (l1 ++ l2).getD i d = l1.getD i d := by
  rw [getD_of_lt _ _ _ (by simp; omega), getD_of_lt _ _ _ h]
  exact List.getElem_append_left h

theorem getD_append_right {α : Type} (l1 l2 : List α) (i : Nat) (d : α)
    (h : l1.length ≤ i) : (l1 ++ l2).getD i d = l2.getD (i - l1.length) d := by
  by_cases hi : i < l1.length + l2.length
  · rw [getD_of_lt _ _ _ (by simp; omega), getD_of_lt _ _ _ (by omega)]
    exact List.getElem_append_right h
  · rw [getD_of_ge _ _ _ (by simp; omega), getD_of_ge _ _ _ (by omega)]

theorem getD_take_lt {α : Type} (l : List α) (n i : Nat) (d : α)
    (h1 : i < n) (h2 : i < l.length) : (l.take n).getD i d = l.getD i d := by
  rw [getD_of_lt _ _ _ (by simp; omega), getD_of_lt _ _ _ h2]
  exact List.getElem_take ..

theorem getD_replicate {α : Type} (n i : Nat) (a d : α) (h : i < n) :
    (List.replicate n a).getD i d = a := by
  rw [getD_of_lt _ _ _ (by simpa using h)]
  exact List.getElem_replicate ..

theorem getD_range (n i : Nat) (d : Nat) (h : i < n) :
    (List.range n).getD i d = i := by
  rw [getD_of_lt _ _ _ (by simpa using h)]
  exact List.getElem_range _ _

theorem ext_getD {α : Type} (d : α) (l1 l2 : List α) (h : l1.length = l2.length)
    (he : ∀ i, i < l1.length → l1.getD i d = l2.getD i d) : l1 = l2 := by
  refine List.ext_getElem h (fun i h1 h2 => ?_)
  have := he i h1
  rwa [getD_of_lt _ _ _ h1, getD_of_lt _ _ _ h2] at this

theorem headD_map_length (ids : List (List Nat)) (h : ids ≠ []) :
    (ids.map List.length).headD 0 = (ids.headD []).length := by
  cases ids with
  | nil => exact absurd rfl h
  | cons a l => rfl

/-! Properties of `argmax`: it returns an in-range index of a maximal score,
preferring the first occurrence, so after forbidden-id suppression it never
lands on a suppressed index as long as some unsuppressed finite score exists. -/

theorem scoreLt_irrefl (a : Option Int) : scoreLt a a = false := by
  cases a <;> simp [scoreLt]

theorem scoreLt_false_trans (a b c : Option Int) (h1 : scoreLt a b = false)
    (h2 : scoreLt b c = false) : scoreLt a c = false := by
  cases a <;> cases b <;> cases c <;> simp_all [scoreLt]
  omega

theorem scoreLt_true_false (a b c : Option Int) (h1 : scoreLt a b = false)
    (h2 : scoreLt c b = true) : scoreLt a c = false := by
  cases a <;> cases b <;> cases c <;> simp_all [scoreLt]
  omega

theorem argmaxPair_le : ∀ (xs : List (Option Int)) (best : Nat) (bv : Option Int)
    (i : Nat), scoreLt (argmaxPair best bv i xs).2 bv = false ∧
      ∀ x ∈ xs, scoreLt (argmaxPair best bv i xs).2 x = false := by
  intro xs
  induction xs with
  | nil =>
      intro best bv i
      exact ⟨by simp [argmaxPair, scoreLt_irrefl], by simp⟩
  | cons x xs ih =>
      intro best bv i
      by_cases h : scoreLt bv x
      · have hrec := ih i x (i + 1)
        refine ⟨?_, ?_⟩
        · simpa [argmaxPair, h] using scoreLt_true_false _ _ _ hrec.1 h
        · intro y hy
          rcases List.mem_cons.1 hy with rfl | hy'
          · simpa [argmaxPair, h] using hrec.1
          · simpa [argmaxPair, h] using hrec.2 y hy'
      · have hrec := ih best bv (i + 1)
        refine ⟨by simpa [argmaxPair, h] using hrec.1, ?_⟩
        intro y hy
        rcases List.mem_cons.1 hy with rfl | hy'
        · simpa [argmaxPair, h] using
            scoreLt_false_trans _ _ _ hrec.1 (by simpa using h)
        · simpa [argmaxPair, h] using hrec.2 y hy'

theorem argmaxPair_pos : ∀ (xs : List (Option Int)) (best : Nat) (bv : Option Int)
    (i : Nat), argmaxPair best bv i xs = (best, bv) ∨
      ∃ j, j < xs.length ∧ argmaxPair best bv i xs = (i + j, xs.getD j none) := by
  intro xs
  induction xs with
  | nil => intro best bv i; exact Or.inl rfl
  | cons x xs ih =>
      intro best bv i
      have hgd : ∀ j, (x :: xs).getD (j + 1) none = xs.getD j none := by
        intro j; simp [List.getD]
      by_cases h : scoreLt bv x
      · rcases ih i x (i + 1) with heq | ⟨j, hj, heq⟩
        · refine Or.inr ⟨0, by simp, ?_⟩
          simpa [argmaxPair, h] using heq
        · refine Or.inr ⟨j + 1, by simpa using hj, ?_⟩
          simp only [argmaxPair, h, if_true]
          rw [heq, hgd j]
          have harith : i + 1 + j = i + (j + 1) := by omega
          rw [harith]
      · rcases ih best bv (i + 1) with heq | ⟨j, hj, heq⟩
        · exact Or.inl (by simpa [argmaxPair, h] using heq)
        · refine Or.inr ⟨j + 1, by simpa using hj, ?_⟩
          simp only [argmaxPair, h, if_false, Bool.false_eq_true]
          rw [heq, hgd j]
          have harith : i + 1 + j = i + (j + 1) := by omega
          rw [harith]

theorem argmax_lt (l : List (Option Int)) (h : l ≠ []) : argmax l < l.length := by
  cases l with
  | nil => exact absurd rfl h
  | cons x xs =>
      rcases argmaxPair_pos xs 0 x 1 with heq | ⟨j, hj, heq⟩
      · simp [argmax, heq]
      · simp [argmax, heq]; omega

theorem argmax_getD_val (l : List (Option Int)) (h : l ≠ []) :
    l.getD (argmax l) none =
      (match l with
       | [] => none
       | x :: xs => (argmaxPair 0 x 1 xs).2) := by
  cases l with
  | nil => exact absurd rfl h
  | cons x xs =>
      rcases argmaxPair_pos xs 0 x 1 with heq | ⟨j, hj, heq⟩
      · simp [argmax, heq]
      · simp only [argmax, heq]
        have harith : 1 + j = j + 1 := by omega
        rw [harith]
        simp [List.getD]

theorem argmax_max (l : List (Option Int)) (k : Nat) (hk : k < l.length) :
    scoreLt (l.getD (argmax l) none) (l.getD k none) = false := by
  cases l with
  | nil => simp at hk
  | cons x xs =>
      rw [argmax_getD_val _ (by simp)]
      have hle := argmaxPair_le xs 0 x 1
      cases k with
      | zero => simpa using hle.1
      | succ k =>
          have : (x :: xs).getD (k + 1) none = xs.getD k none := rfl
          rw [this]
          exact hle.2 _ (getD_mem xs k none (by simpa using hk))

theorem suppressRow_length (f : List Nat) (row : List (Option Int)) :
    (suppressRow f row).length = row.length := by
  simp [suppressRow]

theorem suppressRow_getD (f : List Nat) (row : List (Option Int)) (k : Nat)
    (h : k < row.length) :
    (suppressRow f row).getD k none =
      if k ∈ f then none else row.getD k none := by
  unfold suppressRow
  rw [zipWith_getD _ _ _ _ (by simpa using h) h 0 none none,
    getD_range _ _ _ (by simpa using h)]

theorem argmax_suppress_not_mem (f : List Nat) (row : List (Option Int))
    (hrow : ∀ x ∈ row, x ≠ none) (v : Nat) (hv : v < row.length) (hvf : v ∉ f) :
    argmax (suppressRow f row) ∉ f := by
  intro hmem
  have hne : suppressRow f row ≠ [] := by
    intro h0
    have := suppressRow_length f row
    rw [h0] at this
    simp at this
    omega
  have ha : argmax (suppressRow f row) < row.length := by
    have := argmax_lt _ hne
    rwa [suppressRow_length] at this
  have hnone : (suppressRow f row).getD (argmax (suppressRow f row)) none = none := by
    rw [suppressRow_getD f row _ ha, if_pos hmem]
  have hvval : (suppressRow f row).getD v none = row.getD v none := by
    rw [suppressRow_getD f row v hv, if_neg hvf]
  have hsome : row.getD v none ≠ none := hrow _ (getD_mem row v none hv)
  have hmax := argmax_max (suppressRow f row) v (by rwa [suppressRow_length])
  rw [hnone, hvval] at hmax
  cases hval : row.getD v none with
  | none => exact hsome hval
  | some z => rw [hval] at hmax; simp [scoreLt] at hmax

theorem applyForbiddenRows_length (o : Option (List Nat))
    (ls : List (List (Option Int))) : (applyForbiddenRows o ls).length = ls.length := by
  cases o with
  | none => rfl
  | some f => cases f <;> simp [applyForbiddenRows]

theorem applyForbiddenMats_length (o : Option (List Nat))
    (ls : List (List (List (Option Int)))) :
    (applyForbiddenMats o ls).length = ls.length := by
  cases o with
  | none => rfl
  | some f => cases f <;> simp [applyForbiddenMats]

theorem setColumn_length {α : Type} (buf : List (List α)) (j : Nat)
    (vals : List α) : (setColumn buf j vals).length = min buf.length vals.length := by
  simp [setColumn]

theorem setColumn_row {α : Type} (buf : List (List α)) (j : Nat) (vals : List α)
    (i : Nat) (da : α) (h1 : i < buf.length) (h2 : i < vals.length) :
    (setColumn buf j vals).getD i [] = (buf.getD i []).set j (vals.getD i da) := by
  unfold setColumn
  exact zipWith_getD _ _ _ _ h1 h2 [] da []

/-! Pointwise semantics of one decode step. -/

theorem sample_step_decoding_step {C : Type} (vb : GemmaVocab) (M : GemmaModel C)
    (s : SamplingState C) :
    (sample_step vb M s).decoding_step = s.decoding_step + 1 := rfl

theorem sample_step_num_input_tokens {C : Type} (vb : GemmaVocab) (M : GemmaModel C)
    (s : SamplingState C) :
    (sample_step vb M s).num_input_tokens = s.num_input_tokens := rfl

theorem sample_step_total {C : Type} (vb : GemmaVocab) (M : GemmaModel C)
    (s : SamplingState C) :
    (sample_step vb M s).total_sampling_steps = s.total_sampling_steps := rfl

theorem sample_step_forbidden {C : Type} (vb : GemmaVocab) (M : GemmaModel C)
    (s : SamplingState C) :
    (sample_step vb M s).forbidden_token_ids = s.forbidden_token_ids := rfl

theorem sample_step_token_buffer {C : Type} (vb : GemmaVocab) (M : GemmaModel C)
    (s : SamplingState C) :
    (sample_step vb M s).token_buffer =
      setColumn s.token_buffer (s.decoding_step + 1) (stepCandList M s) := rfl

theorem sample_step_done_eq {C : Type} (vb : GemmaVocab) (M : GemmaModel C)
    (s : SamplingState C) :
    (sample_step vb M s).done =
      List.zipWith (fun b t => b || decide (t = vb.eosId)) s.done
        ((sample_step vb M s).token_buffer.map
          (fun row => row.getD (s.decoding_step + 1) 0)) := rfl

theorem stepLastTokens_length {C : Type} (s : SamplingState C) :
    (stepLastTokens s).length = s.token_buffer.length := by
  simp [stepLastTokens]

theorem stepCandList_length {C : Type} (M : GemmaModel C) (s : SamplingState C)
    (hM : ModelShapeOK M) (B W : Nat) (hwf : StateWF B W s) :
    (stepCandList M s).length = B := by
  simp [stepCandList, List.length_zipWith, applyForbiddenRows_length,
    hM.step_len, stepLastTokens_length, hwf.1, hwf.2.2.2]

theorem zip_getD {α β : Type} (as : List α) (bs : List β) (i : Nat)
    (h1 : i < as.length) (h2 : i < bs.length) (da : α) (db : β) :
    (as.zip bs).getD i (da, db) = (as.getD i da, bs.getD i db) := by
  rw [List.zip]
  exact zipWith_getD Prod.mk as bs i h1 h2 da db (da, db)

theorem stepCandList_getD {C : Type} (M : GemmaModel C) (s : SamplingState C)
    (hM : ModelShapeOK M) (B W : Nat) (hwf : StateWF B W s) (i : Nat) (hi : i < B) :
    (stepCandList M s).getD i 0 =
      if s.decoding_step < s.num_input_tokens.getD i 0 - 1
      then bufGet s.token_buffer i (s.decoding_step + 1)
      else greedyCandidate M s i := by
  unfold stepCandList
  have hz : i < (s.num_input_tokens.zip s.token_buffer).length := by
    simp [List.length_zip, hwf.1, hwf.2.2.2]; omega
  have hc : i < ((applyForbiddenRows s.forbidden_token_ids
      (M.applyStep s.decoding_step (stepLastTokens s) (stepPositions s)
        s.token_buffer s.cache).1).map argmax).length := by
    simp [applyForbiddenRows_length, hM.step_len, stepLastTokens_length, hwf.1]
    omega
  rw [zipWith_getD _ _ _ _ hz hc (0, []) 0 0,
    zip_getD _ _ _ (by rw [hwf.2.2.2]; omega) (by rw [hwf.1]; omega) 0 [],
    map_getD _ _ _ (by simpa [applyForbiddenRows_length, hM.step_len,
      stepLastTokens_length, hwf.1] using hi) [] 0]
  rfl

theorem sample_step_bufGet {C : Type} (vb : GemmaVocab) (M : GemmaModel C)
    (s : SamplingState C) (hM : ModelShapeOK M) (B W : Nat) (hwf : StateWF B W s)
    (i k : Nat) (hi : i < B) :
    bufGet (sample_step vb M s).token_buffer i k =
      if k = s.decoding_step + 1 ∧ k < W then
        (if s.decoding_step < s.num_input_tokens.getD i 0 - 1
         then bufGet s.token_buffer i (s.decoding_step + 1)
         else greedyCandidate M s i)
      else bufGet s.token_buffer i k := by
  have hrow : (sample_step vb M s).token_buffer.getD i [] =
      (s.token_buffer.getD i []).set (s.decoding_step + 1)
        ((stepCandList M s).getD i 0) := by
    rw [sample_step_token_buffer]
    exact setColumn_row _ _ _ i 0 (by rw [hwf.1]; omega)
      (by rw [stepCandList_length M s hM B W hwf]; omega)
  by_cases hk : k = s.decoding_step + 1 ∧ k < W
  · rw [if_pos hk]
    have hval : bufGet (sample_step vb M s).token_buffer i k =
        (stepCandList M s).getD i 0 := by
      unfold bufGet
      rw [hrow, hk.1]
      exact set_getD_self _ _ _ _ (by rw [hwf.2.1 i hi, ← hk.1]; exact hk.2)
    rw [hval, stepCandList_getD M s hM B W hwf i hi]
  · rw [if_neg hk]
    unfold bufGet
    rw [hrow]
    by_cases hke : k = s.decoding_step + 1
    · have hkW : W ≤ k := by
        rcases Nat.lt_or_ge k W with h | h
        · exact absurd ⟨hke, h⟩ hk
        · exact h
      rw [List.set_eq_of_length_le (by rw [hwf.2.1 i hi]; omega)]
    · rw [set_getD_ne _ _ _ _ _ (fun h => hke h.symm)]

theorem sample_step_done_getD {C : Type} (vb : GemmaVocab) (M : GemmaModel C)
    (s : SamplingState C) (hM : ModelShapeOK M) (B W : Nat) (hwf : StateWF B W s)
    (i : Nat) (hi : i < B) :
    (sample_step vb M s).done.getD i false =
      (s.done.getD i false ||
        decide (bufGet (sample_step vb M s).token_buffer i (s.decoding_step + 1)
          = vb.eosId)) := by
  have htb : (sample_step vb M s).token_buffer.length = B := by
    rw [sample_step_token_buffer, setColumn_length,
      stepCandList_length M s hM B W hwf, hwf.1]
    omega
  rw [sample_step_done_eq]
  rw [zipWith_getD _ _ _ _ (by rw [hwf.2.2.1]; omega) (by simpa [htb] using hi)
    false 0 false]
  rw [map_getD _ _ _ (by omega) [] 0]
  rfl

theorem sample_step_wf {C : Type} (vb : GemmaVocab) (M : GemmaModel C)
    (s : SamplingState C) (hM : ModelShapeOK M) (B W : Nat) (hwf : StateWF B W s) :
    StateWF B W (sample_step vb M s) := by
  have htb : (sample_step vb M s).token_buffer.length = B := by
    rw [sample_step_token_buffer, setColumn_length,
      stepCandList_length M s hM B W hwf, hwf.1]
    omega
  refine ⟨htb, ?_, ?_, by rw [sample_step_num_input_tokens]; exact hwf.2.2.2⟩
  · intro i hi
    rw [sample_step_token_buffer,
      setColumn_row _ _ _ i 0 (by rw [hwf.1]; omega)
        (by rw [stepCandList_length M s hM B W hwf]; omega),
      List.length_set]
    exact hwf.2.1 i hi
  · rw [sample_step_done_eq, List.length_zipWith, List.length_map, htb,
      hwf.2.2.1]
    omega

/-! Pointwise semantics of state initialization. -/

theorem init_decoding_step {C : Type} (vb : GemmaVocab) (M : GemmaModel C)
    (ids : List (List Nat)) (total : Nat) (il : Bool) (fids : Option (List Nat)) :
    (init_sample_state vb M ids total il fids).decoding_step =
      (ids.map List.length).headD 0 := rfl

theorem init_num_input_tokens {C : Type} (vb : GemmaVocab) (M : GemmaModel C)
    (ids : List (List Nat)) (total : Nat) (il : Bool) (fids : Option (List Nat)) :
    (init_sample_state vb M ids total il fids).num_input_tokens =
      ids.map List.length := rfl

theorem init_done {C : Type} (vb : GemmaVocab) (M : GemmaModel C)
    (ids : List (List Nat)) (total : Nat) (il : Bool) (fids : Option (List Nat)) :
    (init_sample_state vb M ids total il fids).done =
      List.replicate ids.length false := rfl

theorem init_total {C : Type} (vb : GemmaVocab) (M : GemmaModel C)
    (ids : List (List Nat)) (total : Nat) (il : Bool) (fids : Option (List Nat)) :
    (init_sample_state vb M ids total il fids).total_sampling_steps = total := rfl

theorem init_forbidden {C : Type} (vb : GemmaVocab) (M : GemmaModel C)
    (ids : List (List Nat)) (total : Nat) (il : Bool) (fids : Option (List Nat)) :
    (init_sample_state vb M ids total il fids).forbidden_token_ids = fids := rfl

theorem init_token_buffer_eq {C : Type} (vb : GemmaVocab) (M : GemmaModel C)
    (ids : List (List Nat)) (total : Nat) (il : Bool) (fids : Option (List Nat)) :
    (init_sample_state vb M ids total il fids).token_buffer =
      setColumn (initTokenBuffer vb ids (total + 1))
        ((ids.map List.length).headD 0) (initCandList vb M ids total fids) := rfl

theorem initTokenBuffer_length (vb : GemmaVocab) (ids : List (List Nat))
    (bs : Nat) : (initTokenBuffer vb ids bs).length = ids.length := by
  simp [initTokenBuffer]

theorem prefillTokenInput_length (vb : GemmaVocab) (ids : List (List Nat))
    (total : Nat) : (prefillTokenInput vb ids total).length = ids.length := by
  simp [prefillTokenInput, initTokenBuffer_length]

theorem initCandList_length {C : Type} (vb : GemmaVocab) (M : GemmaModel C)
    (ids : List (List Nat)) (total : Nat) (fids : Option (List Nat))
    (hM : ModelShapeOK M) :
    (initCandList vb M ids total fids).length = ids.length := by
  simp [initCandList, applyForbiddenMats_length, hM.prefill_len,
    prefillTokenInput_length]

theorem initTokenBuffer_row (vb : GemmaVocab) (ids : List (List Nat)) (bs : Nat)
    (i : Nat) (hi : i < ids.length) :
    (initTokenBuffer vb ids bs).getD i [] =
      (ids.getD i []).take bs ++
        List.replicate (bs - (ids.getD i []).length) vb.padId := by
  unfold initTokenBuffer
  rw [map_getD _ _ _ hi [] []]

theorem initTokenBuffer_row_length (vb : GemmaVocab) (ids : List (List Nat))
    (bs : Nat) (i : Nat) (hi : i < ids.length) :
    ((initTokenBuffer vb ids bs).getD i []).length = bs := by
  rw [initTokenBuffer_row vb ids bs i hi]
  simp [List.length_append, List.length_take, List.length_replicate]
  omega

theorem init_bufGet_ne {C : Type} (vb : GemmaVocab) (M : GemmaModel C)
    (ids : List (List Nat)) (total : Nat) (il : Bool) (fids : Option (List Nat))
    (hM : ModelShapeOK M) (i k : Nat) (hi : i < ids.length)
    (hk : k ≠ (ids.map List.length).headD 0) :
    bufGet (init_sample_state vb M ids total il fids).token_buffer i k =
      ((ids.getD i []).take (total + 1) ++
        List.replicate (total + 1 - (ids.getD i []).length) vb.padId).getD k 0 := by
  unfold bufGet
  rw [init_token_buffer_eq,
    setColumn_row _ _ _ i 0 (by rw [initTokenBuffer_length]; omega)
      (by rw [initCandList_length vb M ids total fids hM]; omega),
    set_getD_ne _ _ _ _ _ (fun h => hk h.symm),
    initTokenBuffer_row vb ids (total + 1) i hi]

theorem init_bufGet_boundary {C : Type} (vb : GemmaVocab) (M : GemmaModel C)
    (ids : List (List Nat)) (total : Nat) (il : Bool) (fids : Option (List Nat))
    (hM : ModelShapeOK M) (i : Nat) (hi : i < ids.length)
    (hlt : (ids.map List.length).headD 0 < total + 1) :
    bufGet (init_sample_state vb M ids total il fids).token_buffer i
        ((ids.map List.length).headD 0) =
      (initCandList vb M ids total fids).getD i 0 := by
  unfold bufGet
  rw [init_token_buffer_eq,
    setColumn_row _ _ _ i 0 (by rw [initTokenBuffer_length]; omega)
      (by rw [initCandList_length vb M ids total fids hM]; omega)]
  exact set_getD_self _ _ _ _
    (by rw [initTokenBuffer_row_length vb ids (total + 1) i hi]; omega)

theorem init_bufGet_prompt {C : Type} (vb : GemmaVocab) (M : GemmaModel C)
    (ids : List (List Nat)) (total : Nat) (il : Bool) (fids : Option (List Nat))
    (hM : ModelShapeOK M) (i k : Nat) (hi : i < ids.length)
    (hk1 : k < (ids.getD i []).length) (hW : (ids.getD i []).length ≤ total + 1)
    (hk2 : k ≠ (ids.map List.length).headD 0) :
    bufGet (init_sample_state vb M ids total il fids).token_buffer i k =
      (ids.getD i []).getD k 0 := by
  rw [init_bufGet_ne vb M ids total il fids hM i k hi hk2,
    getD_append_left _ _ _ _ (by rw [List.length_take]; omega),
    getD_take_lt _ _ _ _ (by omega) hk1]

theorem init_bufGet_pad {C : Type} (vb : GemmaVocab) (M : GemmaModel C)
    (ids : List (List Nat)) (total : Nat) (il : Bool) (fids : Option (List Nat))
    (hM : ModelShapeOK M) (i k : Nat) (hi : i < ids.length)
    (hk1 : (ids.getD i []).length ≤ k) (hk2 : k < total + 1)
    (hk3 : k ≠ (ids.map List.length).headD 0) :
    bufGet (init_sample_state vb M ids total il fids).token_buffer i k =
      vb.padId := by
  rw [init_bufGet_ne vb M ids total il fids hM i k hi hk3,
    getD_append_right _ _ _ _ (by rw [List.length_take]; omega)]
  exact getD_replicate _ _ _ _ (by rw [List.length_take]; omega)

theorem init_wf {C : Type} (vb : GemmaVocab) (M : GemmaModel C)
    (ids : List (List Nat)) (total : Nat) (il : Bool) (fids : Option (List Nat))
    (hM : ModelShapeOK M) :
    StateWF ids.length (total + 1) (init_sample_state vb M ids total il fids) := by
  refine ⟨?_, ?_, ?_, ?_⟩
  · rw [init_token_buffer_eq, setColumn_length, initTokenBuffer_length,
      initCandList_length vb M ids total fids hM]
    omega
  · intro i hi
    rw [init_token_buffer_eq,
      setColumn_row _ _ _ i 0 (by rw [initTokenBuffer_length]; omega)
        (by rw [initCandList_length vb M ids total fids hM]; omega),
      List.length_set]
    exact initTokenBuffer_row_length vb ids (total + 1) i hi
  · rw [init_done]; simp
  · rw [init_num_input_tokens]; simp

/-! Reachability along the decode loop and the invariants it preserves. -/

theorem reachable_trans {C : Type} (vb : GemmaVocab) (M : GemmaModel C)
    {s t u : SamplingState C} (h1 : Reachable vb M s t)
    (h2 : Reachable vb M t u) : Reachable vb M s u := by
  induction h2 with
  | refl => exact h1
  | step h g ih => exact Reachable.step ih g

theorem reachable_sampleLoop {C : Type} (vb : GemmaVocab) (M : GemmaModel C) :
    ∀ (fuel : Nat) (s : SamplingState C),
      Reachable vb M s (sampleLoop vb M fuel s) := by
  intro fuel
  induction fuel with
  | zero => intro s; exact Reachable.refl s
  | succ fuel ih =>
      intro s
      by_cases h : stepGuard s
      · rw [sampleLoop, if_pos h]
        exact reachable_trans vb M (Reachable.step (Reachable.refl s) h)
          (ih (sample_step vb M s))
      · rw [sampleLoop, if_neg h]
        exact Reachable.refl s

theorem reachable_num_input_tokens {C : Type} (vb : GemmaVocab) (M : GemmaModel C)
    {s t : SamplingState C} (h : Reachable vb M s t) :
    t.num_input_tokens = s.num_input_tokens := by
  induction h with
  | refl => rfl
  | step h g ih => rw [sample_step_num_input_tokens]; exact ih

theorem reachable_total {C : Type} (vb : GemmaVocab) (M : GemmaModel C)
    {s t : SamplingState C} (h : Reachable vb M s t) :
    t.total_sampling_steps = s.total_sampling_steps := by
  induction h with
  | refl => rfl
  | step h g ih => rw [sample_step_total]; exact ih

theorem reachable_forbidden {C : Type} (vb : GemmaVocab) (M : GemmaModel C)
    {s t : SamplingState C} (h : Reachable vb M s t) :
    t.forbidden_token_ids = s.forbidden_token_ids := by
  induction h with
  | refl => rfl
  | step h g ih => rw [sample_step_forbidden]; exact ih

theorem reachable_decoding_ge {C : Type} (vb : GemmaVocab) (M : GemmaModel C)
    {s t : SamplingState C} (h : Reachable vb M s t) :
    s.decoding_step ≤ t.decoding_step := by
  induction h with
  | refl => exact Nat.le_refl _
  | step h g ih => rw [sample_step_decoding_step]; omega

theorem reachable_wf {C : Type} (vb : GemmaVocab) (M : GemmaModel C)
    {s t : SamplingState C} (h : Reachable vb M s t) (hM : ModelShapeOK M)
    (B W : Nat) (hwf : StateWF B W s) : StateWF B W t := by
  induction h with
  | refl => exact hwf
  | step h g ih => exact sample_step_wf vb M _ hM B W ih

theorem reachable_decoding_le_total {C : Type} (vb : GemmaVocab)
    (M : GemmaModel C) {s t : SamplingState C} (h : Reachable vb M s t)
    (hs : s.decoding_step ≤ s.total_sampling_steps) :
    t.decoding_step ≤ t.total_sampling_steps := by
  induction h with
  | refl => exact hs
  | step h g ih =>
      rw [sample_step_decoding_step, sample_step_total]
      have g' := g
      unfold stepGuard at g'
      rw [Bool.and_eq_true] at g'
      have hlt := of_decide_eq_true g'.1
      omega

theorem sampleLoop_guard_false {C : Type} (vb : GemmaVocab) (M : GemmaModel C) :
    ∀ (fuel : Nat) (s : SamplingState C),
      s.total_sampling_steps - s.decoding_step ≤ fuel →
        stepGuard (sampleLoop vb M fuel s) = false := by
  intro fuel
  induction fuel with
  | zero =>
      intro s h
      rw [sampleLoop]
      unfold stepGuard
      have : ¬ s.decoding_step < s.total_sampling_steps := by omega
      simp [this]
  | succ fuel ih =>
      intro s h
      by_cases hg : stepGuard s
      · rw [sampleLoop, if_pos hg]
        have hg' := hg
        unfold stepGuard at hg'
        rw [Bool.and_eq_true] at hg'
        have hlt := of_decide_eq_true hg'.1
        exact ih (sample_step vb M s)
          (by rw [sample_step_decoding_step, sample_step_total]; omega)
      · rw [sampleLoop, if_neg hg]
        exact Bool.of_not_eq_true hg

theorem sampleLoop_guard_stop {C : Type} (vb : GemmaVocab) (M : GemmaModel C)
    (s : SamplingState C) (h : stepGuard s = false) :
    ∀ fuel, sampleLoop vb M fuel s = s := by
  intro fuel
  cases fuel with
  | zero => rfl
  | succ f => rw [sampleLoop, if_neg (by simp [h])]

theorem sampleLoop_add_fuel {C : Type} (vb : GemmaVocab) (M : GemmaModel C) :
    ∀ (fuel extra : Nat) (s : SamplingState C),
      stepGuard (sampleLoop vb M fuel s) = false →
        sampleLoop vb M (fuel + extra) s = sampleLoop vb M fuel s := by
  intro fuel
  induction fuel with
  | zero =>
      intro extra s h
      have h' : stepGuard s = false := h
      show sampleLoop vb M (0 + extra) s = s
      rw [Nat.zero_add]
      exact sampleLoop_guard_stop vb M s h' extra
  | succ fuel ih =>
      intro extra s h
      by_cases hg : stepGuard s
      · have h2 : stepGuard (sampleLoop vb M fuel (sample_step vb M s)) = false := by
          rw [sampleLoop, if_pos hg] at h
          exact h
        have harith : fuel + 1 + extra = (fuel + extra) + 1 := by omega
        rw [harith, sampleLoop, if_pos hg, ih extra _ h2, sampleLoop, if_pos hg]
      · have h' : stepGuard s = false := Bool.of_not_eq_true hg
        rw [sampleLoop_guard_stop vb M s h' (fuel + 1 + extra),
          sampleLoop_guard_stop vb M s h' (fuel + 1)]

/-- Prompt-region invariant of the decode loop: along any run started from
`init_sample_state`, every buffer slot strictly inside a prompt and distinct
from the prefill boundary `num_input_tokens[0]` keeps its original prompt
token.  (The boundary slot itself is overwritten by the init-time greedy
write for sequences whose prompt is longer than sequence 0's.) -/
theorem prompt_region_stable {C : Type} (vb : GemmaVocab) (M : GemmaModel C)
    (ids : List (List Nat)) (total : Nat) (il : Bool) (fids : Option (List Nat))
    (hM : ModelShapeOK M) (hlen : ∀ r ∈ ids, r.length ≤ total)
    (t : SamplingState C)
    (ht : Reachable vb M (init_sample_state vb M ids total il fids) t) :
    ∀ i j, i < ids.length → j < (ids.getD i []).length →
      j ≠ (ids.map List.length).headD 0 →
      bufGet t.token_buffer i j = (ids.getD i []).getD j 0 := by
  induction ht with
  | refl =>
      intro i j hi hj hne
      exact init_bufGet_prompt vb M ids total il fids hM i j hi hj
        (by have := hlen _ (getD_mem ids i [] hi); omega) hne
  | @step u hreach hguard ih =>
      intro i j hi hj hne
      have hwf : StateWF ids.length (total + 1) u :=
        reachable_wf vb M hreach hM ids.length (total + 1)
          (init_wf vb M ids total il fids hM)
      have hnit : u.num_input_tokens.getD i 0 = (ids.getD i []).length := by
        rw [reachable_num_input_tokens vb M hreach, init_num_input_tokens]
        exact map_getD _ _ _ hi [] 0
      rw [sample_step_bufGet vb M u hM ids.length (total + 1) hwf i j hi]
      by_cases hk : j = u.decoding_step + 1 ∧ j < total + 1
      · rw [if_pos hk]
        have hover : u.decoding_step < u.num_input_tokens.getD i 0 - 1 := by
          rw [hnit]; omega
        rw [if_pos hover, ← hk.1]
        exact ih i j hi hj hne
      · rw [if_neg hk]
        exact ih i j hi hj hne

/-! Forbidden-id suppression along the run. -/

theorem initCandList_not_forbidden {C : Type} (vb : GemmaVocab) (M : GemmaModel C)
    (ids : List (List Nat)) (total : Nat) (f : List Nat)
    (hM : ModelShapeOK M) (hL : ModelLogitsOK M) (hf : f ≠ [])
    (v : Nat) (hv : v < M.numEmbed) (hvf : v ∉ f)
    (h0 : (ids.map List.length).headD 0 ≠ 0)
    (i : Nat) (hi : i < ids.length) :
    (initCandList vb M ids total (some f)).getD i 0 ∉ f := by
  obtain ⟨a, f', rfl⟩ : ∃ a f', f = a :: f' := by
    cases f with
    | nil => exact absurd rfl hf
    | cons a f' => exact ⟨a, f', rfl⟩
  unfold initCandList
  have hlen : (M.applyPrefill (prefillTokenInput vb ids total)
      ((build_positions_from_mask (initInputMask vb ids (total + 1))).map
        (fun row => row.take ((ids.map List.length).headD 0)))
      ((ids.map List.length).headD 0) (initTokenBuffer vb ids (total + 1))
      (M.initCache ids.length)).1.length = ids.length := by
    rw [hM.prefill_len, prefillTokenInput_length]
  rw [map_getD _ _ _ (by rw [applyForbiddenMats_length, hlen]; omega) [] 0]
  have hmats : applyForbiddenMats (some (a :: f'))
      (M.applyPrefill (prefillTokenInput vb ids total)
        ((build_positions_from_mask (initInputMask vb ids (total + 1))).map
          (fun row => row.take ((ids.map List.length).headD 0)))
        ((ids.map List.length).headD 0) (initTokenBuffer vb ids (total + 1))
        (M.initCache ids.length)).1 =
      (M.applyPrefill (prefillTokenInput vb ids total)
        ((build_positions_from_mask (initInputMask vb ids (total + 1))).map
          (fun row => row.take ((ids.map List.length).headD 0)))
        ((ids.map List.length).headD 0) (initTokenBuffer vb ids (total + 1))
        (M.initCache ids.length)).1.map (List.map (suppressRow (a :: f'))) := rfl
  rw [hmats, map_getD _ _ _ (by omega) [] []]
  have hmat := hL.prefill_row (prefillTokenInput vb ids total)
    ((build_positions_from_mask (initInputMask vb ids (total + 1))).map
      (fun row => row.take ((ids.map List.length).headD 0)))
    ((ids.map List.length).headD 0) (initTokenBuffer vb ids (total + 1))
    (M.initCache ids.length) _ (getD_mem _ i [] (by omega))
  have hlast : (List.map argmax (((M.applyPrefill (prefillTokenInput vb ids total)
      ((build_positions_from_mask (initInputMask vb ids (total + 1))).map
        (fun row => row.take ((ids.map List.length).headD 0)))
      ((ids.map List.length).headD 0) (initTokenBuffer vb ids (total + 1))
      (M.initCache ids.length)).1.getD i []).map (suppressRow (a :: f')))).length =
        (ids.map List.length).headD 0 := by
    rw [List.length_map, List.length_map, hmat.1]
  unfold lastD
  rw [hlast]
  have hidx : (ids.map List.length).headD 0 - 1 <
      ((M.applyPrefill (prefillTokenInput vb ids total)
        ((build_positions_from_mask (initInputMask vb ids (total + 1))).map
          (fun row => row.take ((ids.map List.length).headD 0)))
        ((ids.map List.length).headD 0) (initTokenBuffer vb ids (total + 1))
        (M.initCache ids.length)).1.getD i []).length := by
    rw [hmat.1]; omega
  rw [map_getD _ _ _ (by rw [List.length_map]; exact hidx) [] 0,
    map_getD _ _ _ hidx [] []]
  have hrow := hmat.2 _ (getD_mem _ ((ids.map List.length).headD 0 - 1) [] hidx)
  exact argmax_suppress_not_mem (a :: f') _ hrow.2 v (by rw [hrow.1]; omega) hvf

theorem greedyCandidate_not_forbidden {C : Type} (M : GemmaModel C)
    (s : SamplingState C) (f : List Nat)
    (hM : ModelShapeOK M) (hL : ModelLogitsOK M)
    (hfids : s.forbidden_token_ids = some f) (hf : f ≠ [])
    (v : Nat) (hv : v < M.numEmbed) (hvf : v ∉ f)
    (B W : Nat) (hwf : StateWF B W s) (i : Nat) (hi : i < B) :
    greedyCandidate M s i ∉ f := by
  obtain ⟨a, f', rfl⟩ : ∃ a f', f = a :: f' := by
    cases f with
    | nil => exact absurd rfl hf
    | cons a f' => exact ⟨a, f', rfl⟩
  unfold greedyCandidate
  rw [hfids]
  have hlen : (M.applyStep s.decoding_step (stepLastTokens s) (stepPositions s)
      s.token_buffer s.cache).1.length = B := by
    rw [hM.step_len, stepLastTokens_length, hwf.1]
  have happ : applyForbiddenRows (some (a :: f'))
      (M.applyStep s.decoding_step (stepLastTokens s) (stepPositions s)
        s.token_buffer s.cache).1 =
      (M.applyStep s.decoding_step (stepLastTokens s) (stepPositions s)
        s.token_buffer s.cache).1.map (suppressRow (a :: f')) := rfl
  rw [happ, map_getD _ _ _ (by omega) [] []]
  have hrow := hL.step_row s.decoding_step (stepLastTokens s) (stepPositions s)
    s.token_buffer s.cache _ (getD_mem _ i [] (by omega))
  exact argmax_suppress_not_mem (a :: f') _ hrow.2 v (by rw [hrow.1]; omega) hvf

/-- Generated-region invariant: with a non-empty forbidden set not containing
the pad id and missing at least one vocabulary index, no buffer slot at or
beyond a sequence's own prompt length ever holds a forbidden id in any state
of the run. -/
theorem generated_region_not_forbidden {C : Type} (vb : GemmaVocab)
    (M : GemmaModel C) (ids : List (List Nat)) (total : Nat) (il : Bool)
    (f : List Nat) (hM : ModelShapeOK M) (hL : ModelLogitsOK M)
    (hf : f ≠ []) (hpad : vb.padId ∉ f)
    (v : Nat) (hv : v < M.numEmbed) (hvf : v ∉ f)
    (h0 : (ids.map List.length).headD 0 ≠ 0)
    (t : SamplingState C)
    (ht : Reachable vb M (init_sample_state vb M ids total il (some f)) t) :
    ∀ i j, i < ids.length → (ids.getD i []).length ≤ j → j < total + 1 →
      bufGet t.token_buffer i j ∉ f := by
  induction ht with
  | refl =>
      intro i j hi hj hjW
      by_cases hb : j = (ids.map List.length).headD 0
      · rw [hb, init_bufGet_boundary vb M ids total il (some f) hM i hi
          (by omega)]
        exact initCandList_not_forbidden vb M ids total f hM hL hf v hv hvf h0 i hi
      · rw [init_bufGet_pad vb M ids total il (some f) hM i j hi hj hjW hb]
        exact hpad
  | @step u hreach hguard ih =>
      intro i j hi hj hjW
      have hwf : StateWF ids.length (total + 1) u :=
        reachable_wf vb M hreach hM ids.length (total + 1)
          (init_wf vb M ids total il (some f) hM)
      have hnit : u.num_input_tokens.getD i 0 = (ids.getD i []).length := by
        rw [reachable_num_input_tokens vb M hreach, init_num_input_tokens]
        exact map_getD _ _ _ hi [] 0
      rw [sample_step_bufGet vb M u hM ids.length (total + 1) hwf i j hi]
      by_cases hk : j = u.decoding_step + 1 ∧ j < total + 1
      · rw [if_pos hk]
        have hnover : ¬ (u.decoding_step < u.num_input_tokens.getD i 0 - 1) := by
          rw [hnit]; omega
        rw [if_neg hnover]
        exact greedyCandidate_not_forbidden M u f hM hL
          (by rw [reachable_forbidden vb M hreach, init_forbidden]) hf v hv hvf
          ids.length (total + 1) hwf i hi
      · rw [if_neg hk]
        exact ih i j hi hj hjW

/-! Pointwise semantics of EOS masking. -/

theorem findIdx_map_comp {α β : Type} (f : α → β) (p : β → Bool) :
    ∀ l : List α, (l.map f).findIdx p = l.findIdx (fun a => p (f a))
  | [] => rfl
  | a :: l => by
      rw [List.map_cons, List.findIdx_cons, List.findIdx_cons,
        findIdx_map_comp f p l]

theorem le_findIdx_of_prefix (p : Nat → Bool) :
    ∀ (l : List Nat) (n : Nat), n ≤ l.length →
      (∀ k, k < n → p (l.getD k 0) = false) → n ≤ l.findIdx p := by
  intro l
  induction l with
  | nil => intro n h _; simpa using h
  | cons a l ih =>
      intro n hn hpre
      cases n with
      | zero => exact Nat.zero_le _
      | succ n =>
          have ha : p a = false := hpre 0 (by omega)
          rw [List.findIdx_cons, ha]
          have := ih n (by simpa using hn) (fun k hk => hpre (k + 1) (by omega))
          simpa using this

theorem maskRowAfterEos_length (vb : GemmaVocab) (row : List Nat) :
    (maskRowAfterEos vb row).length = row.length := by
  simp [maskRowAfterEos]

theorem maskRowAfterEos_getD (vb : GemmaVocab) (row : List Nat) (j : Nat)
    (hj : j < row.length) :
    (maskRowAfterEos vb row).getD j 0 =
      row.getD j 0 * (if j ≤ maskEosIdx vb row then 1 else 0) +
        vb.padId * (if j ≤ maskEosIdx vb row then 0 else 1) := by
  unfold maskRowAfterEos
  rw [zipWith_getD _ _ _ _ (by simpa using hj) hj 0 0 0,
    getD_range _ _ _ (by simpa using hj)]

theorem any_map_id (p : Nat → Bool) :
    ∀ l : List Nat, (l.map p).any id = l.any p
  | [] => rfl
  | a :: l => by
      rw [List.map_cons, List.any_cons, List.any_cons, any_map_id p l]
      rfl

theorem maskRowAfterEos_getD_le (vb : GemmaVocab) (row : List Nat) (j : Nat)
    (hj : j < row.length) (hle : j ≤ maskEosIdx vb row) :
    (maskRowAfterEos vb row).getD j 0 = row.getD j 0 := by
  rw [maskRowAfterEos_getD vb row j hj, if_pos hle, if_pos hle]
  simp

theorem maskRowAfterEos_getD_gt (vb : GemmaVocab) (row : List Nat) (j : Nat)
    (hj : j < row.length) (hgt : maskEosIdx vb row < j) :
    (maskRowAfterEos vb row).getD j 0 = vb.padId := by
  rw [maskRowAfterEos_getD vb row j hj, if_neg (by omega), if_neg (by omega)]
  simp

theorem maskEosIdx_of_mem (vb : GemmaVocab) (row : List Nat)
    (h : vb.eosId ∈ row) :
    maskEosIdx vb row = row.findIdx (fun t => decide (t = vb.eosId)) := by
  unfold maskEosIdx boolArgmax
  have hany : row.any (fun t => decide (t = vb.eosId)) = true :=
    List.any_eq_true.2 ⟨vb.eosId, h, by simp⟩
  rw [if_pos hany, if_pos (by rw [any_map_id]; exact hany)]
  rw [findIdx_map_comp]
  rfl

theorem maskEosIdx_of_not_mem (vb : GemmaVocab) (row : List Nat)
    (h : vb.eosId ∉ row) : maskEosIdx vb row = row.length := by
  unfold maskEosIdx
  rw [if_neg]
  intro hany
  rcases List.any_eq_true.1 hany with ⟨x, hx, hpx⟩
  exact h (by rwa [of_decide_eq_true hpx] at hx)

theorem maskRowAfterEos_of_not_mem (vb : GemmaVocab) (row : List Nat)
    (h : vb.eosId ∉ row) : maskRowAfterEos vb row = row := by
  refine ext_getD 0 _ _ (maskRowAfterEos_length vb row) (fun j hj => ?_)
  have hj' : j < row.length := by rwa [maskRowAfterEos_length] at hj
  rw [maskRowAfterEos_getD_le vb row j hj'
    (by rw [maskEosIdx_of_not_mem vb row h]; omega)]

theorem mask_tokens_length (vb : GemmaVocab) (buf : List (List Nat)) :
    (mask_tokens_after_eos_ids vb buf).length = buf.length := by
  simp [mask_tokens_after_eos_ids]

theorem mask_tokens_getD (vb : GemmaVocab) (buf : List (List Nat)) (i : Nat)
    (hi : i < buf.length) :
    (mask_tokens_after_eos_ids vb buf).getD i [] =
      maskRowAfterEos vb (buf.getD i []) := by
  unfold mask_tokens_after_eos_ids
  exact map_getD _ _ _ hi [] []

/-! Orchestrator-level support. -/

theorem le_foldr_max : ∀ (l : List Nat) (x : Nat), x ∈ l → x ≤ l.foldr max 0 := by
  intro l
  induction l with
  | nil => intro x h; simp at h
  | cons a l ih =>
      intro x h
      rcases List.mem_cons.1 h with rfl | h'
      · rw [List.foldr_cons]
        exact Nat.le_max_left _ _
      · rw [List.foldr_cons]
        exact le_trans (ih x h') (Nat.le_max_right _ _)

theorem headD_map_tokenize (vb : GemmaVocab) (inputs : List String)
    (h : inputs ≠ []) :
    (inputs.map (tokenize vb)).headD [] = tokenize vb (inputs.headD "") := by
  cases inputs with
  | nil => exact absurd rfl h
  | cons a l => rfl

/-- The token output of `sampler_run`, unfolded: per sequence, the
EOS-masked terminal buffer row sliced from `0` (echo) or
`num_input_tokens[i]` through `total_sampling_steps`. -/
theorem sampler_run_tokens_eq {C : Type} (vb : GemmaVocab) (M : GemmaModel C)
    (inputs : List String) (gen : Nat) (echo rl : Bool)
    (fids : Option (List Nat)) :
    (sampler_run vb M inputs gen echo rl fids).tokens =
      List.zipWith
        (fun row k =>
          (row.take (((inputs.map (tokenize vb)).map List.length).foldr max 0 +
            gen + mm_input_length)).drop (if echo then 0 else k))
        (mask_tokens_after_eos_ids vb
          (sample_fn vb M (init_sample_state vb M (inputs.map (tokenize vb))
            (((inputs.map (tokenize vb)).map List.length).foldr max 0 + gen +
              mm_input_length) rl fids)).token_buffer)
        (sample_fn vb M (init_sample_state vb M (inputs.map (tokenize vb))
          (((inputs.map (tokenize vb)).map List.length).foldr max 0 + gen +
            mm_input_length) rl fids)).num_input_tokens := rfl

theorem encodeForbidden_error (vb : GemmaVocab) :
    ∀ (fts : List String) (t : String), t ∈ fts →
      (vb.encodeAsIds t).length ≠ 1 →
      encodeForbidden vb fts =
        .error "Forbidden tokens must map to single token ids in the vocab." := by
  intro fts
  induction fts with
  | nil => intro t h _; simp at h
  | cons a fts ih =>
      intro t ht hlen
      by_cases ha : (vb.encodeAsIds a).length ≠ 1
      · unfold encodeForbidden
        rw [if_pos ha]
      · unfold encodeForbidden
        rw [if_neg ha]
        rcases List.mem_cons.1 ht with rfl | ht'
        · exact absurd hlen ha
        · rw [ih t ht' hlen]

theorem sampler_call_validation_error {C : Type} (vb : GemmaVocab)
    (M : GemmaModel C) (inputs : List String) (gen : Nat) (echo rl : Bool)
    (fts : List String) (t : String) (ht : t ∈ fts)
    (hlen : (vb.encodeAsIds t).length ≠ 1) :
    sampler_call vb M inputs gen echo rl (some fts) =
      .error "Forbidden tokens must map to single token ids in the vocab." := by
  show (match encodeForbidden vb fts with
    | Except.error e => Except.error e
    | Except.ok ids =>
        Except.ok (sampler_run vb M inputs gen echo rl (some ids))) =
    Except.error "Forbidden tokens must map to single token ids in the vocab."
  rw [encodeForbidden_error vb fts t ht hlen]

theorem demoModel_shape : ModelShapeOK demoModel := by
  constructor
  · intro d lt sp tb c; simp [demoModel]
  · intro tk ps d tb c; simp [demoModel]

theorem demoModel_logits : ModelLogitsOK demoModel := by
  constructor
  · intro d lt sp tb c r hr
    simp only [demoModel, List.mem_map] at hr
    obtain ⟨x, hx, rfl⟩ := hr
    exact ⟨by decide, by decide⟩
  · intro tk ps d tb c m hm
    simp only [demoModel, List.mem_map] at hm
    obtain ⟨x, hx, rfl⟩ := hm
    refine ⟨by simp, ?_⟩
    intro r hr
    rw [List.eq_of_mem_replicate hr]
    exact ⟨by decide, by decide⟩

/-! Claim theorems. -/

/-- C1, counterexample: with two prompts `[2,3]` and `[2,3,3]` (the first
shorter) and a backend whose greedy pick is token `4`, the full run leaves
`token_buffer[1, :3] = [2,3,4] ≠ [2,3,3]`: `init_sample_state` writes its
greedy token at column `num_input_tokens[0] = 1 + 1 = 2` of every row, inside
the second sequence's prompt region. -/
theorem c1_prompt_overwritten_counterexample :
    ¬ (((sample_fn demoVocab demoModel (init_sample_state demoVocab demoModel
          [[2, 3], [2, 3, 3]] 4 false none)).token_buffer.getD 1 []).take 3 =
        [2, 3, 3]) := by decide

/-- C1 (amended): along any run, every buffer slot strictly inside a
sequence's prompt region keeps its original prompt token EXCEPT possibly the
prefill-boundary column `num_input_tokens[0]`, which the init-time greedy
write overwrites in sequences whose prompt is longer than sequence 0's; in
particular, when sequence 0's prompt length is maximal in the batch, the
whole prompt region of every sequence is immutable. -/
theorem c1_amended_prompt_immutability {C : Type} (vb : GemmaVocab)
    (M : GemmaModel C) (ids : List (List Nat)) (total : Nat) (il : Bool)
    (fids : Option (List Nat)) (hM : ModelShapeOK M)
    (hlen : ∀ r ∈ ids, r.length ≤ total) (t : SamplingState C)
    (ht : Reachable vb M (init_sample_state vb M ids total il fids) t) :
    (∀ i j, i < ids.length → j < (ids.getD i []).length →
      j ≠ (ids.map List.length).headD 0 →
      bufGet t.token_buffer i j = (ids.getD i []).getD j 0) ∧
    ((∀ r ∈ ids, r.length ≤ (ids.map List.length).headD 0) →
      ∀ i j, i < ids.length → j < (ids.getD i []).length →
        bufGet t.token_buffer i j = (ids.getD i []).getD j 0) := by
  refine ⟨prompt_region_stable vb M ids total il fids hM hlen t ht, ?_⟩
  intro hmax i j hi hj
  exact prompt_region_stable vb M ids total il fids hM hlen t ht i j hi hj
    (by have := hmax _ (getD_mem ids i [] hi); omega)

theorem c1_amended_prompt_immutability_witness :
    bufGet (init_sample_state demoVocab demoModel [[2, 3], [2, 3, 3]] 4 false
      none).token_buffer 1 1 = 3 := by
  have h := c1_amended_prompt_immutability demoVocab demoModel
    [[2, 3], [2, 3, 3]] 4 false none demoModel_shape (by decide) _
    (Reachable.refl _)
  exact (h.1 1 1 (by decide) (by decide) (by decide)).trans (by decide)

/-- C2: in one decode step, the token written at buffer column
`decoding_step + 1` of sequence `i` is the next token already in the buffer
when `decoding_step < num_input_tokens[i] - 1` (the slot still falls inside
that sequence's original prompt), and the forbidden-suppressed greedy argmax
candidate otherwise — exactly the `jnp.where` of `_sample_step`. -/
theorem c2_prompt_override_rule {C : Type} (vb : GemmaVocab) (M : GemmaModel C)
    (s : SamplingState C) (B W : Nat) (hM : ModelShapeOK M)
    (hwf : StateWF B W s) (i : Nat) (hi : i < B)
    (hk : s.decoding_step + 1 < W) :
    bufGet (sample_step vb M s).token_buffer i (s.decoding_step + 1) =
      if s.decoding_step < s.num_input_tokens.getD i 0 - 1
      then bufGet s.token_buffer i (s.decoding_step + 1)
      else greedyCandidate M s i := by
  rw [sample_step_bufGet vb M s hM B W hwf i _ hi, if_pos ⟨rfl, hk⟩]

theorem c2_prompt_override_rule_witness :
    bufGet (sample_step demoVocab demoModel (init_sample_state demoVocab
      demoModel [[2, 3], [2, 3, 3]] 4 false none)).token_buffer 1
      ((init_sample_state demoVocab demoModel [[2, 3], [2, 3, 3]] 4 false
        none).decoding_step + 1) = 4 := by
  have h := c2_prompt_override_rule demoVocab demoModel
    (init_sample_state demoVocab demoModel [[2, 3], [2, 3, 3]] 4 false none)
    2 5 demoModel_shape
    (init_wf demoVocab demoModel [[2, 3], [2, 3, 3]] 4 false none
      demoModel_shape) 1 (by decide) (by decide)
  exact h.trans (by decide)

/-- C3: after initialization `decoding_step` equals the first
(representative) sequence's prompt-token count `num_input_tokens[0]`, the
token slice handed to the prefill forward pass consists of exactly the first
`num_input_tokens[0]` columns of the buffer, and on a concrete ragged batch
this boundary (2) differs from the batch maximum prompt length (3). -/
theorem c3_prefill_boundary {C : Type} (vb : GemmaVocab) (M : GemmaModel C)
    (ids : List (List Nat)) (total : Nat) (il : Bool)
    (fids : Option (List Nat)) :
    (ids ≠ [] → (init_sample_state vb M ids total il fids).decoding_step =
      (ids.headD []).length) ∧
    (∀ r ∈ prefillTokenInput vb ids total,
      r.length = min ((ids.map List.length).headD 0) (total + 1)) ∧
    ((init_sample_state demoVocab demoModel [[2, 3], [2, 3, 3]] 4 false
        none).decoding_step = 2 ∧
      (([[2, 3], [2, 3, 3]] : List (List Nat)).map List.length).foldr max 0
        = 3) := by
  refine ⟨?_, ?_, by decide, by decide⟩
  · intro h
    rw [init_decoding_step, headD_map_length ids h]
  · intro r hr
    unfold prefillTokenInput at hr
    rcases List.mem_map.1 hr with ⟨row, hrow, rfl⟩
    unfold initTokenBuffer at hrow
    rcases List.mem_map.1 hrow with ⟨idr, hidr, rfl⟩
    rw [List.length_take, List.length_append, List.length_take,
      List.length_replicate]
    omega

theorem c3_prefill_boundary_witness :
    (init_sample_state demoVocab demoModel [[2, 3], [2, 3, 3]] 4 false
      none).decoding_step = 2 := by
  have h := c3_prefill_boundary demoVocab demoModel [[2, 3], [2, 3, 3]] 4
    false none
  exact (h.1 (by decide)).trans (by decide)

/-- C4: each decode step increments `decoding_step` by exactly one; along the
guarded loop every reachable state keeps `decoding_step ≤
total_sampling_steps`; after `total_sampling_steps - decoding_step` (at most
`total_sampling_steps`) iterations the while-loop guard
`decoding_step < total_sampling_steps AND any(¬done)` is false even if no
sequence ever emits EOS; and `_sample_fn` is that bounded loop. -/
theorem c4_loop_termination {C : Type} (vb : GemmaVocab) (M : GemmaModel C)
    (s : SamplingState C) (h : s.decoding_step ≤ s.total_sampling_steps) :
    ((sample_step vb M s).decoding_step = s.decoding_step + 1) ∧
    (∀ t, Reachable vb M s t →
      t.decoding_step ≤ t.total_sampling_steps) ∧
    stepGuard (sampleLoop vb M (s.total_sampling_steps - s.decoding_step) s)
      = false ∧
    (s.total_sampling_steps - s.decoding_step ≤ s.total_sampling_steps) ∧
    sample_fn vb M s =
      sampleLoop vb M (s.total_sampling_steps - s.decoding_step) s := by
  refine ⟨sample_step_decoding_step vb M s, ?_, ?_, by omega, rfl⟩
  · intro t ht
    exact reachable_decoding_le_total vb M ht h
  · exact sampleLoop_guard_false vb M _ s (le_refl _)

theorem c4_loop_termination_witness :
    stepGuard (sampleLoop demoVocab demoModel
      ((init_sample_state demoVocab demoModel [[2, 3], [2, 3, 3]] 4 false
        none).total_sampling_steps -
       (init_sample_state demoVocab demoModel [[2, 3], [2, 3, 3]] 4 false
        none).decoding_step)
      (init_sample_state demoVocab demoModel [[2, 3], [2, 3, 3]] 4 false
        none)) = false := by
  exact (c4_loop_termination demoVocab demoModel
    (init_sample_state demoVocab demoModel [[2, 3], [2, 3, 3]] 4 false none)
    (by decide)).2.2.1

/-- C5: post-processing a terminal buffer row containing an EOS id leaves
every position at or before the first EOS unchanged and replaces every
strictly later position by the pad id; a row without an EOS id is returned
unchanged. -/
theorem c5_mask_after_eos (vb : GemmaVocab) (buf : List (List Nat)) (i : Nat) :
    (vb.eosId ∈ buf.getD i [] →
      (∀ j, j ≤ (buf.getD i []).findIdx (fun t => decide (t = vb.eosId)) →
        ((mask_tokens_after_eos_ids vb buf).getD i []).getD j 0 =
          (buf.getD i []).getD j 0) ∧
      (∀ j, (buf.getD i []).findIdx (fun t => decide (t = vb.eosId)) < j →
        j < (buf.getD i []).length →
        ((mask_tokens_after_eos_ids vb buf).getD i []).getD j 0 = vb.padId)) ∧
    (vb.eosId ∉ buf.getD i [] →
      (mask_tokens_after_eos_ids vb buf).getD i [] = buf.getD i []) := by
  by_cases hi : i < buf.length
  · rw [mask_tokens_getD vb buf i hi]
    refine ⟨fun hmem => ⟨?_, ?_⟩,
      fun hnmem => maskRowAfterEos_of_not_mem vb _ hnmem⟩
    · intro j hj
      have hfi : (buf.getD i []).findIdx (fun t => decide (t = vb.eosId)) <
          (buf.getD i []).length :=
        List.findIdx_lt_length_of_exists ⟨vb.eosId, hmem, by simp⟩
      exact maskRowAfterEos_getD_le vb _ j (by omega)
        (by rw [maskEosIdx_of_mem vb _ hmem]; omega)
    · intro j hj hjl
      exact maskRowAfterEos_getD_gt vb _ j hjl
        (by rw [maskEosIdx_of_mem vb _ hmem]; omega)
  · have h1 : buf.getD i [] = [] := getD_of_ge _ _ _ (by omega)
    have h2 : (mask_tokens_after_eos_ids vb buf).getD i [] = [] :=
      getD_of_ge _ _ _ (by rw [mask_tokens_length]; omega)
    rw [h1, h2]
    exact ⟨fun hmem => absurd hmem (List.not_mem_nil _), fun _ => rfl⟩

theorem c5_mask_after_eos_witness :
    ((mask_tokens_after_eos_ids demoVocab [[5, 1, 7]]).getD 0 []).getD 2 0
      = 0 := by
  have h := c5_mask_after_eos demoVocab [[5, 1, 7]] 0
  exact ((h.1 (by decide)).2 2 (by decide) (by decide)).trans (by decide)

/-- C6: with a non-empty forbidden set (not containing the pad id and missing
at least one in-vocabulary index) and a backend producing finite scores, no
buffer slot at or beyond a sequence's own prompt length holds a forbidden id
in any state of the run: both the prefill selection and every decode-step
selection suppress forbidden ids to `-inf` before the argmax. -/
theorem c6_forbidden_never_generated {C : Type} (vb : GemmaVocab)
    (M : GemmaModel C) (ids : List (List Nat)) (total : Nat) (il : Bool)
    (f : List Nat) (hM : ModelShapeOK M) (hL : ModelLogitsOK M)
    (hf : f ≠ []) (hpad : vb.padId ∉ f) (v : Nat) (hv : v < M.numEmbed)
    (hvf : v ∉ f) (h0 : (ids.map List.length).headD 0 ≠ 0)
    (t : SamplingState C)
    (ht : Reachable vb M (init_sample_state vb M ids total il (some f)) t)
    (i j : Nat) (hi : i < ids.length) (hj : (ids.getD i []).length ≤ j)
    (hjW : j < total + 1) :
    bufGet t.token_buffer i j ∉ f :=
  generated_region_not_forbidden vb M ids total il f hM hL hf hpad v hv hvf
    h0 t ht i j hi hj hjW

theorem c6_forbidden_never_generated_witness :
    bufGet (sample_fn demoVocab demoModel (init_sample_state demoVocab
      demoModel [[2, 3]] 3 false (some [2]))).token_buffer 0 2 ∉ [2] := by
  exact c6_forbidden_never_generated demoVocab demoModel [[2, 3]] 3 false [2]
    demoModel_shape demoModel_logits (by decide) (by decide) 4 (by decide)
    (by decide) (by decide) _
    (reachable_sampleLoop demoVocab demoModel _ _) 0 2 (by decide) (by decide)
    (by decide)

/-- C7: `done` starts all-false at initialization, each step computes the new
flag as the old flag OR-ed with "the token written at `decoding_step + 1`
equals the EOS id", and consequently a true flag stays true (monotonicity). -/
theorem c7_done_monotonic {C : Type} (vb : GemmaVocab) (M : GemmaModel C)
    (ids : List (List Nat)) (total : Nat) (il : Bool)
    (fids : Option (List Nat)) (s : SamplingState C) (B W : Nat)
    (hM : ModelShapeOK M) (hwf : StateWF B W s) (i : Nat) (hi : i < B) :
    ((init_sample_state vb M ids total il fids).done =
      List.replicate ids.length false) ∧
    ((sample_step vb M s).done.getD i false =
      (s.done.getD i false ||
        decide (bufGet (sample_step vb M s).token_buffer i
          (s.decoding_step + 1) = vb.eosId))) ∧
    (s.done.getD i false = true →
      (sample_step vb M s).done.getD i false = true) := by
  refine ⟨init_done vb M ids total il fids,
    sample_step_done_getD vb M s hM B W hwf i hi, ?_⟩
  intro hd
  rw [sample_step_done_getD vb M s hM B W hwf i hi, hd, Bool.true_or]

theorem c7_done_monotonic_witness :
    (sample_step demoVocab demoModel (init_sample_state demoVocab demoModel
      [[2, 3], [2, 3, 3]] 4 false none)).done.getD 1 false = false := by
  have h := c7_done_monotonic demoVocab demoModel [[2, 3], [2, 3, 3]] 4 false
    none (init_sample_state demoVocab demoModel [[2, 3], [2, 3, 3]] 4 false
      none) 2 5 demoModel_shape
    (init_wf demoVocab demoModel [[2, 3], [2, 3, 3]] 4 false none
      demoModel_shape) 1 (by decide)
  exact h.2.1.trans (by decide)

/-- C9: if any supplied forbidden-token string encodes to two or more
vocabulary ids, `__call__` raises the validation error before any state
initialization or model invocation — the result is the error (no output),
and it does not depend on the backend at all. -/
theorem c9_forbidden_multi_id_error {C C' : Type} (vb : GemmaVocab)
    (M : GemmaModel C) (M' : GemmaModel C') (inputs : List String) (gen : Nat)
    (echo rl : Bool) (fts : List String) (t : String) (ht : t ∈ fts)
    (hlen : 2 ≤ (vb.encodeAsIds t).length) :
    (sampler_call vb M inputs gen echo rl (some fts) =
      .error "Forbidden tokens must map to single token ids in the vocab.") ∧
    (sampler_call vb M inputs gen echo rl (some fts)).isOk = false ∧
    sampler_call vb M inputs gen echo rl (some fts) =
      sampler_call vb M' inputs gen echo rl (some fts) := by
  have h1 := sampler_call_validation_error vb M inputs gen echo rl fts t ht
    (by omega)
  have h2 := sampler_call_validation_error vb M' inputs gen echo rl fts t ht
    (by omega)
  refine ⟨h1, ?_, by rw [h1, h2]⟩
  rw [h1]
  rfl

theorem c9_forbidden_multi_id_error_witness :
    sampler_call demoVocab demoModel ["a"] 1 false false (some ["xy"]) =
      .error "Forbidden tokens must map to single token ids in the vocab." := by
  exact (c9_forbidden_multi_id_error demoVocab demoModel demoModel ["a"] 1
    false false ["xy"] "xy" (List.mem_singleton.2 rfl) (by decide)).1

/-- C10: a forbidden-token string that encodes to zero vocabulary ids also
raises the same validation error: the check rejects every encoding whose
length differs from 1, which is stricter than "more than one id". -/
theorem c10_forbidden_zero_id_error {C : Type} (vb : GemmaVocab)
    (M : GemmaModel C) (inputs : List String) (gen : Nat) (echo rl : Bool)
    (fts : List String) (t : String) (ht : t ∈ fts)
    (henc : vb.encodeAsIds t = []) :
    sampler_call vb M inputs gen echo rl (some fts) =
      .error "Forbidden tokens must map to single token ids in the vocab." :=
  sampler_call_validation_error vb M inputs gen echo rl fts t ht
    (by rw [henc]; simp)

/-- C8, counterexample: with prompts `["a", "bb"]` (tokenized lengths 2 and
3, so sequence 1's prompt is longer than sequence 0's), one generation step
and a backend that always picks token `4`, the echoed output of sequence 1 is
`[2,3,4,4]` while its prompt ++ non-echoed output is `[2,3,3] ++ [4]`: the
init-time greedy write clobbers the prompt token at the prefill boundary, so
the echoed output is not the prompt concatenated with the non-echoed one. -/
theorem c8_echo_concat_counterexample :
    ¬ ((sampler_run demoVocab demoModel ["a", "bb"] 1 true false
        none).tokens.getD 1 [] =
      tokenize demoVocab "bb" ++
        (sampler_run demoVocab demoModel ["a", "bb"] 1 false false
          none).tokens.getD 1 []) := by decide

/-- C8 (amended): for the same call arguments — any generation-step count,
return-logits flag and forbidden-token set — a sequence's echo output is
always the first `num_input_tokens[i]` entries of the post-processed buffer
followed by its non-echo output (the echoed slice starts at 0, the
non-echoed slice at `num_input_tokens[i]`, both ending at
`total_sampling_steps`); that prefix equals the sequence's original prompt
tokens — giving echoed = prompt ++ non-echoed — whenever the sequence's
prompt is no longer than sequence 0's (so the prefill-boundary write stays
outside its prompt) and no EOS id occurs among its prompt tokens (so masking
leaves the prompt intact). -/
theorem c8_amended_echo_concat {C : Type} (vb : GemmaVocab) (M : GemmaModel C)
    (inputs : List String) (gen : Nat) (rl : Bool)
    (fids : Option (List Nat)) (hM : ModelShapeOK M)
    (i : Nat) (hi : i < inputs.length) :
    ((sampler_run vb M inputs gen true rl fids).tokens.getD i [] =
      ((mask_tokens_after_eos_ids vb (sample_fn vb M (init_sample_state vb M
        (inputs.map (tokenize vb))
        (((inputs.map (tokenize vb)).map List.length).foldr max 0 + gen +
          mm_input_length) rl fids)).token_buffer).getD i []).take
        ((sample_fn vb M (init_sample_state vb M (inputs.map (tokenize vb))
          (((inputs.map (tokenize vb)).map List.length).foldr max 0 + gen +
            mm_input_length) rl fids)).num_input_tokens.getD i 0) ++
        (sampler_run vb M inputs gen false rl fids).tokens.getD i []) ∧
    ((tokenize vb (inputs.getD i "")).length ≤
        (tokenize vb (inputs.headD "")).length →
      vb.eosId ∉ tokenize vb (inputs.getD i "") →
      (sampler_run vb M inputs gen true rl fids).tokens.getD i [] =
        tokenize vb (inputs.getD i "") ++
          (sampler_run vb M inputs gen false rl fids).tokens.getD i []) := by
  have hne : inputs ≠ [] := by
    intro h; rw [h] at hi; simp at hi
  rw [sampler_run_tokens_eq vb M inputs gen true rl fids,
    sampler_run_tokens_eq vb M inputs gen false rl fids]
  set ids := inputs.map (tokenize vb) with hids
  set T := (ids.map List.length).foldr max 0 + gen + mm_input_length with hT
  set s0 := init_sample_state vb M ids T rl fids with hs0
  set st := sample_fn vb M s0 with hst
  have hlenids : ids.length = inputs.length := by rw [hids]; simp
  have hin : i < ids.length := by omega
  have hidsne : ids ≠ [] := by
    intro hc
    rw [hc] at hlenids
    simp at hlenids
    omega
  have hreach : Reachable vb M s0 st := by
    rw [hst]
    exact reachable_sampleLoop vb M (s0.total_sampling_steps - s0.decoding_step) s0
  have hreach' : Reachable vb M (init_sample_state vb M ids T rl fids) st := by
    rw [← hs0]
    exact hreach
  have hwfs0 : StateWF ids.length (T + 1) s0 := by
    rw [hs0]
    exact init_wf vb M ids T rl fids hM
  have hwf : StateWF ids.length (T + 1) st :=
    reachable_wf vb M hreach hM ids.length (T + 1) hwfs0
  have hidsi : ids.getD i [] = tokenize vb (inputs.getD i "") := by
    rw [hids]
    exact map_getD _ _ _ hi "" []
  have hn0 : (ids.map List.length).headD 0 =
      (tokenize vb (inputs.headD "")).length := by
    rw [headD_map_length ids hidsne, hids, headD_map_tokenize vb inputs hne]
  have hmax : ∀ r ∈ ids, r.length ≤ T := by
    intro r hr
    have h1 : r.length ∈ ids.map List.length := List.mem_map.2 ⟨r, hr, rfl⟩
    have h2 := le_foldr_max _ _ h1
    rw [hT]
    omega
  have hnT : (tokenize vb (inputs.getD i "")).length ≤ T := by
    have := hmax _ (getD_mem ids i [] hin)
    rwa [hidsi] at this
  have hrowlen : (st.token_buffer.getD i []).length = T + 1 :=
    hwf.2.1 i (by omega)
  have hmasklen : (mask_tokens_after_eos_ids vb st.token_buffer).length =
      ids.length := by
    rw [mask_tokens_length, hwf.1]
  have hnitlen : st.num_input_tokens.length = ids.length := hwf.2.2.2
  rw [zipWith_getD _ _ _ _ (by omega) (by omega) [] 0 [],
    zipWith_getD _ _ _ _ (by omega) (by omega) [] 0 []]
  have hnit_i : st.num_input_tokens.getD i 0 =
      (tokenize vb (inputs.getD i "")).length := by
    have h1 : st.num_input_tokens = ids.map List.length := by
      rw [reachable_num_input_tokens vb M hreach', init_num_input_tokens]
    rw [h1, map_getD _ _ _ hin [] 0, hidsi]
  have hmrow : (mask_tokens_after_eos_ids vb st.token_buffer).getD i [] =
      maskRowAfterEos vb (st.token_buffer.getD i []) :=
    mask_tokens_getD vb st.token_buffer i (by rw [hwf.1]; omega)
  have hsplit : ((mask_tokens_after_eos_ids vb st.token_buffer).getD i
        []).take T =
      ((mask_tokens_after_eos_ids vb st.token_buffer).getD i []).take
        (st.num_input_tokens.getD i 0) ++
        (((mask_tokens_after_eos_ids vb st.token_buffer).getD i []).take
          T).drop (st.num_input_tokens.getD i 0) := by
    rw [hnit_i]
    calc ((mask_tokens_after_eos_ids vb st.token_buffer).getD i []).take T
        = (((mask_tokens_after_eos_ids vb st.token_buffer).getD i []).take
            T).take (tokenize vb (inputs.getD i "")).length ++
          (((mask_tokens_after_eos_ids vb st.token_buffer).getD i []).take
            T).drop (tokenize vb (inputs.getD i "")).length :=
          (List.take_append_drop _ _).symm
      _ = ((mask_tokens_after_eos_ids vb st.token_buffer).getD i []).take
            (tokenize vb (inputs.getD i "")).length ++
          (((mask_tokens_after_eos_ids vb st.token_buffer).getD i []).take
            T).drop (tokenize vb (inputs.getD i "")).length := by
          rw [List.take_take, min_eq_left hnT]
  refine ⟨hsplit, ?_⟩
  intro hle heos
  have hn0ge : (tokenize vb (inputs.getD i "")).length ≤
      (ids.map List.length).headD 0 := by
    rw [hn0]
    exact hle
  have hprompt : ∀ j, j < (tokenize vb (inputs.getD i "")).length →
      bufGet st.token_buffer i j = (tokenize vb (inputs.getD i "")).getD j 0 := by
    intro j hj
    have hps := prompt_region_stable vb M ids T rl fids hM hmax st hreach' i j
      hin (by rw [hidsi]; omega) (by omega)
    rwa [hidsi] at hps
  have hpre_ne : ∀ k, k < (tokenize vb (inputs.getD i "")).length →
      (decide ((st.token_buffer.getD i []).getD k 0 = vb.eosId)) = false := by
    intro k hk
    have hv : (st.token_buffer.getD i []).getD k 0 =
        (tokenize vb (inputs.getD i "")).getD k 0 := hprompt k hk
    have hmem : (tokenize vb (inputs.getD i "")).getD k 0 ∈
        tokenize vb (inputs.getD i "") := getD_mem _ k 0 hk
    refine decide_eq_false ?_
    intro hc
    rw [hv] at hc
    rw [hc] at hmem
    exact heos hmem
  have hidx : ∀ j, j < (tokenize vb (inputs.getD i "")).length →
      j ≤ maskEosIdx vb (st.token_buffer.getD i []) := by
    intro j hj
    by_cases hmem : vb.eosId ∈ st.token_buffer.getD i []
    · rw [maskEosIdx_of_mem vb _ hmem]
      have := le_findIdx_of_prefix (fun t => decide (t = vb.eosId))
        (st.token_buffer.getD i []) (tokenize vb (inputs.getD i "")).length
        (by omega) (fun k hk => hpre_ne k hk)
      omega
    · rw [maskEosIdx_of_not_mem vb _ hmem]
      omega
  have hmval : ∀ j, j < (tokenize vb (inputs.getD i "")).length →
      (maskRowAfterEos vb (st.token_buffer.getD i [])).getD j 0 =
        (tokenize vb (inputs.getD i "")).getD j 0 := by
    intro j hj
    rw [maskRowAfterEos_getD_le vb _ j (by omega) (hidx j hj)]
    exact hprompt j hj
  have hhead : ((maskRowAfterEos vb (st.token_buffer.getD i [])).take T).take
      (tokenize vb (inputs.getD i "")).length =
        tokenize vb (inputs.getD i "") := by
    rw [List.take_take, min_eq_left hnT]
    refine ext_getD 0 _ _ ?_ ?_
    · rw [List.length_take, maskRowAfterEos_length, hrowlen]
      omega
    · intro j hj
      have hj' : j < (tokenize vb (inputs.getD i "")).length := by
        rw [List.length_take, maskRowAfterEos_length, hrowlen] at hj
        omega
      rw [getD_take_lt _ _ _ _ hj'
        (by rw [maskRowAfterEos_length, hrowlen]; omega)]
      exact hmval j hj'
  have hfinal : ((mask_tokens_after_eos_ids vb st.token_buffer).getD i
        []).take T =
      tokenize vb (inputs.getD i "") ++
        (((mask_tokens_after_eos_ids vb st.token_buffer).getD i []).take
          T).drop (st.num_input_tokens.getD i 0) := by
    rw [hmrow, hnit_i]
    calc (maskRowAfterEos vb (st.token_buffer.getD i [])).take T
        = ((maskRowAfterEos vb (st.token_buffer.getD i [])).take T).take
            (tokenize vb (inputs.getD i "")).length ++
          ((maskRowAfterEos vb (st.token_buffer.getD i [])).take T).drop
            (tokenize vb (inputs.getD i "")).length :=
          (List.take_append_drop _ _).symm
      _ = tokenize vb (inputs.getD i "") ++
          ((maskRowAfterEos vb (st.token_buffer.getD i [])).take T).drop
            (tokenize vb (inputs.getD i "")).length := by rw [hhead]
  exact hfinal

theorem c8_amended_echo_concat_witness :
    (sampler_run demoVocab demoModel ["bb", "a"] 1 true false
      (some [2])).tokens.getD 1 [] =
      tokenize demoVocab "a" ++
        (sampler_run demoVocab demoModel ["bb", "a"] 1 false false
          (some [2])).tokens.getD 1 [] := by
  exact (c8_amended_echo_concat demoVocab demoModel ["bb", "a"] 1 false
    (some [2]) demoModel_shape 1 (by decide)).2 (by decide) (by decide)

theorem c10_forbidden_zero_id_error_witness :
    sampler_call demoVocab demoModel ["a"] 1 false false (some [""]) =
      .error "Forbidden tokens must map to single token ids in the vocab." := by
  exact c10_forbidden_zero_id_error demoVocab demoModel ["a"] 1 false false
    [""] "" (List.mem_singleton.2 rfl) (by decide)

end GemmaSampler
